import Mathlib

/-
Verification of the RAG indexing/routing system: a shallow embedding of the
code chunker (managers/chunker.py), the symbol graph extractor
(managers/symbol.py), the vector retriever's top-k handling
(managers/rag_query.py) and the signal router
(managers/services/routing_manager.py), together with theorems settling the
specification claims.

Strings are modelled as lists of characters (Str).  Python's str.splitlines
is modelled for newline-terminated text; str.strip strips the ASCII
whitespace characters.  Machine floats are modelled as rationals.
-/

namespace RagSpec

abbrev Str := List Char

/-- Character list of a Lean string literal. -/
def lit (s : String) : Str := s.data

/-- Python str whitespace (the characters stripped by str.strip and matched
by the regex class for whitespace), restricted to ASCII. -/
def isSpaceCh (c : Char) : Bool :=
  c = ' ' || c = '\t' || c = '\n' || c = '\r' || c = '\x0b' || c = '\x0c'

/-- Python word character (regex w): ASCII alphanumeric, underscore, or any
non-ASCII character (covers the Korean keywords that appear in the source). -/
def isWordCh (c : Char) : Bool :=
  c.isAlphanum || c = '_' || decide (c.val ≥ 128)

/-- Leading-whitespace strip (left half of Python str.strip). -/
def trimLeft (s : Str) : Str := s.dropWhile isSpaceCh

/-- Trailing-whitespace strip (right half of Python str.strip). -/
def trimRight (s : Str) : Str := (s.reverse.dropWhile isSpaceCh).reverse

/-- Python str.strip. -/
def trim (s : Str) : Str := trimLeft (trimRight s)

/-- Python str.splitlines, modelled for newline-separated text: a final
newline terminates the last line rather than opening an empty one, and the
empty string has no lines. -/
def splitLines : Str → List Str
  | [] => []
  | c :: rest =>
    if c = '\n' then [] :: splitLines rest
    else
      match splitLines rest with
      | [] => [[c]]
      | l :: ls => (c :: l) :: ls

/-- Python "newline".join on a list of lines. -/
def intercalateNl : List Str → Str
  | [] => []
  | [g] => g
  | g :: gs => g ++ '\n' :: intercalateNl gs

/-- Lowercasing, character by character (ASCII model of str.lower; the
Korean characters appearing in the source have no case). -/
def toLowerS (s : Str) : Str := s.map Char.toLower

/-- Python substring containment (the in operator on str). -/
def containsSub (hay needle : Str) : Bool :=
  hay.tails.any (fun t => List.isPrefixOf needle t)

/-- The trimmed non-blank lines of a text, in order: split into lines, strip
each, drop the blank ones.  This is the line content preserved by the
chunker, which strips whitespace at section boundaries. -/
def nonBlankT (s : Str) : List Str :=
  ((splitLines s).map trim).filter (fun l => !l.isEmpty)

end RagSpec

namespace RagSpec

/- Basic lemmas about trimming and line splitting. -/

theorem trimLeft_nil : trimLeft [] = [] := rfl

theorem trimLeft_cons_of_space {c : Char} (h : isSpaceCh c = true) (s : Str) :
    trimLeft (c :: s) = trimLeft s := by
  simp [trimLeft, List.dropWhile_cons, h]

theorem trimLeft_cons_of_not {c : Char} (h : isSpaceCh c = false) (s : Str) :
    trimLeft (c :: s) = c :: s := by
  simp [trimLeft, List.dropWhile_cons, h]

theorem trimLeft_append_single (xs : Str) (c : Char) :
    trimLeft (xs ++ [c]) =
      if (trimLeft xs).isEmpty then trimLeft [c] else trimLeft xs ++ [c] := by
  induction xs with
  | nil => rw [List.nil_append, if_pos (by rfl)]
  | cons x xs ih =>
    by_cases hx : isSpaceCh x = true
    · rw [List.cons_append, trimLeft_cons_of_space hx, trimLeft_cons_of_space hx, ih]
    · rw [List.cons_append, trimLeft_cons_of_not (Bool.eq_false_iff.mpr hx),
        trimLeft_cons_of_not (Bool.eq_false_iff.mpr hx)]
      simp

theorem trimRight_nil : trimRight [] = [] := rfl

theorem trimRight_single (c : Char) :
    trimRight [c] = if isSpaceCh c then [] else [c] := by
  by_cases h : isSpaceCh c = true <;> simp [trimRight, List.dropWhile, h]

theorem trimRight_snoc_of_space {c : Char} (h : isSpaceCh c = true) (s : Str) :
    trimRight (s ++ [c]) = trimRight s := by
  simp [trimRight, List.dropWhile_cons, h]

theorem trimRight_reverse_eq (s : Str) : trimRight s = (trimLeft s.reverse).reverse := rfl

theorem trimRight_cons (c : Char) (s : Str) :
    trimRight (c :: s) = if (trimRight s).isEmpty then trimRight [c] else c :: trimRight s := by
  have h1 : (c :: s).reverse = s.reverse ++ [c] := by simp
  rw [trimRight_reverse_eq, h1, trimLeft_append_single]
  by_cases h2 : (trimLeft s.reverse).isEmpty = true
  · rw [if_pos h2]
    have : (trimRight s).isEmpty = true := by
      rw [trimRight_reverse_eq]
      simpa using h2
    rw [if_pos this, trimRight_reverse_eq]
    simp
  · rw [if_neg h2]
    have : ¬ (trimRight s).isEmpty = true := by
      rw [trimRight_reverse_eq]
      simpa using h2
    rw [if_neg this, trimRight_reverse_eq]
    simp

theorem trim_nil : trim [] = [] := rfl

theorem trim_snoc_of_space {c : Char} (h : isSpaceCh c = true) (s : Str) :
    trim (s ++ [c]) = trim s := by
  rw [trim, trim, trimRight_snoc_of_space h]

theorem trim_cons_of_space {c : Char} (h : isSpaceCh c = true) (s : Str) :
    trim (c :: s) = trim s := by
  rw [trim, trim, trimRight_cons]
  by_cases h2 : (trimRight s).isEmpty = true
  · rw [if_pos h2, trimRight_single, if_pos h]
    rw [List.isEmpty_iff] at h2
    rw [h2]
  · rw [if_neg h2, trimLeft_cons_of_space h]

theorem splitLines_ne_nil {s : Str} (h : s ≠ []) : splitLines s ≠ [] := by
  match s with
  | c :: rest =>
    rw [splitLines]
    by_cases hc : c = '\n'
    · simp [hc]
    · rw [if_neg hc]
      match splitLines rest with
      | [] => simp
      | l :: ls => simp

theorem splitLines_eq_nil_iff {s : Str} : splitLines s = [] ↔ s = [] := by
  constructor
  · intro h
    by_contra hs
    exact splitLines_ne_nil hs h
  · intro h
    rw [h]
    rfl

theorem splitLines_cons_of_ne {x : Char} (hx : ¬ x = '\n') (u : Str) :
    splitLines (x :: u) = (x :: (splitLines u).headD []) :: (splitLines u).tail := by
  rw [splitLines, if_neg hx]
  match splitLines u with
  | [] => rfl
  | l :: ls => rfl

theorem splitLines_cons_nl (u : Str) : splitLines ('\n' :: u) = [] :: splitLines u := by
  rw [splitLines, if_pos rfl]

/-- Does the text end with a newline (vacuously true for the empty text)? -/
def lastIsNl (s : Str) : Bool :=
  match s.getLast? with
  | some c => c = '\n'
  | none => true

/-- Apply a function to the last element of a list. -/
def modLast (f : Str → Str) : List Str → List Str
  | [] => []
  | [a] => [f a]
  | a :: b :: l => a :: modLast f (b :: l)

theorem modLast_cons (f : Str → Str) (a : Str) {l : List Str} (h : l ≠ []) :
    modLast f (a :: l) = a :: modLast f l := by
  match l with
  | b :: l' => rfl

theorem lastIsNl_cons (x : Char) {t : Str} (h : t ≠ []) :
    lastIsNl (x :: t) = lastIsNl t := by
  match t with
  | b :: t' =>
    rw [lastIsNl, lastIsNl, List.getLast?_cons_cons]

theorem splitLines_snoc (t : Str) (c : Char) :
    splitLines (t ++ [c]) =
      if c = '\n' then
        (if lastIsNl t then splitLines t ++ [[]] else splitLines t)
      else
        (if lastIsNl t then splitLines t ++ [[c]]
         else modLast (fun l => l ++ [c]) (splitLines t)) := by
  induction t with
  | nil =>
    by_cases hc : c = '\n'
    · subst hc
      decide
    · rw [if_neg hc]
      simp [splitLines, hc, lastIsNl]
  | cons x t' ih =>
    by_cases hx : x = '\n'
    · subst hx
      rw [List.cons_append, splitLines_cons_nl, splitLines_cons_nl, ih]
      by_cases ht : t' = []
      · subst ht
        have hl : lastIsNl ['\n'] = true := rfl
        rw [hl]
        by_cases hc : c = '\n' <;> simp [hc, lastIsNl]
      · rw [lastIsNl_cons '\n' ht]
        by_cases hc : c = '\n'
        · rw [if_pos hc, if_pos hc]
          by_cases hn : lastIsNl t' = true <;> simp [hn]
        · rw [if_neg hc, if_neg hc]
          by_cases hn : lastIsNl t' = true
          · simp [hn]
          · have hsp : splitLines t' ≠ [] := splitLines_ne_nil ht
            simp only [Bool.not_eq_true] at hn
            rw [hn, if_neg (by simp), if_neg (by simp),
              modLast_cons _ _ hsp]
    · rw [List.cons_append, splitLines_cons_of_ne hx, splitLines_cons_of_ne hx, ih]
      by_cases ht : t' = []
      · subst ht
        have hl : lastIsNl [x] = (decide (x = '\n')) := rfl
        have hl2 : lastIsNl ([] : Str) = true := rfl
        rw [hl, hl2]
        by_cases hc : c = '\n'
        · subst hc
          rw [if_pos rfl, if_pos rfl, if_pos rfl]
          simp [hx, splitLines, modLast]
        · rw [if_neg hc, if_neg hc, if_pos rfl]
          simp [hx, splitLines, hc, modLast]
      · rw [lastIsNl_cons x ht]
        obtain ⟨h', tl', hsp⟩ : ∃ h' tl', splitLines t' = h' :: tl' := by
          match hsp : splitLines t' with
          | [] => exact absurd hsp (splitLines_ne_nil ht)
          | h' :: tl' => exact ⟨h', tl', rfl⟩
        rw [hsp]
        by_cases hc : c = '\n'
        · rw [if_pos hc, if_pos hc]
          by_cases hn : lastIsNl t' = true
          · simp [hn]
          · simp only [Bool.not_eq_true] at hn
            simp [hn]
        · rw [if_neg hc, if_neg hc]
          by_cases hn : lastIsNl t' = true
          · simp [hn]
          · simp only [Bool.not_eq_true] at hn
            rw [hn, if_neg (by simp), if_neg (by simp)]
            match tl' with
            | [] => simp [modLast]
            | b :: tl'' =>
              rw [modLast_cons _ _ (show (b :: tl'' : List Str) ≠ [] by simp)]
              simp only [List.headD_cons, List.tail_cons]
              conv_rhs => rw [modLast_cons _ _ (show (b :: tl'' : List Str) ≠ [] by simp)]

theorem map_trim_modLast {c : Char} (h : isSpaceCh c = true) (L : List Str) :
    (modLast (fun l => l ++ [c]) L).map trim = L.map trim := by
  induction L with
  | nil => rfl
  | cons a L ih =>
    match L with
    | [] => simp [modLast, trim_snoc_of_space h]
    | b :: L' =>
      rw [modLast_cons _ _ (by simp)]
      simp only [List.map_cons]
      rw [ih]
      rfl

theorem nonBlankT_nil : nonBlankT [] = [] := rfl

theorem nonBlankT_snoc_space {c : Char} (h : isSpaceCh c = true) (u : Str) :
    nonBlankT (u ++ [c]) = nonBlankT u := by
  rw [nonBlankT, nonBlankT, splitLines_snoc]
  by_cases hc : c = '\n'
  · rw [if_pos hc]
    by_cases hn : lastIsNl u = true
    · rw [if_pos hn]
      simp [trim_nil]
    · rw [if_neg hn]
  · rw [if_neg hc]
    by_cases hn : lastIsNl u = true
    · rw [if_pos hn]
      have : trim [c] = [] := by
        have := trim_cons_of_space h ([] : Str)
        simpa [trim_nil] using this
      simp [this]
    · rw [if_neg hn, map_trim_modLast h]

theorem nonBlankT_append_spaces {sp : Str} (h : ∀ x ∈ sp, isSpaceCh x = true) (u : Str) :
    nonBlankT (u ++ sp) = nonBlankT u := by
  induction sp generalizing u with
  | nil => simp
  | cons x sp ih =>
    have hx : isSpaceCh x = true := h x (by simp)
    have hrest : ∀ y ∈ sp, isSpaceCh y = true := fun y hy => h y (by simp [hy])
    rw [show u ++ x :: sp = (u ++ [x]) ++ sp by simp, ih hrest,
      nonBlankT_snoc_space hx]

theorem trimRight_decomp (s : Str) :
    ∃ sp, s = trimRight s ++ sp ∧ ∀ x ∈ sp, isSpaceCh x = true := by
  refine ⟨(s.reverse.takeWhile isSpaceCh).reverse, ?_, ?_⟩
  · rw [trimRight]
    conv_lhs => rw [← List.reverse_reverse s, ← List.takeWhile_append_dropWhile isSpaceCh s.reverse]
    rw [List.reverse_append]
  · intro x hx
    rw [List.mem_reverse] at hx
    exact List.mem_takeWhile_imp hx

theorem nonBlankT_trimRight (s : Str) : nonBlankT (trimRight s) = nonBlankT s := by
  obtain ⟨sp, hdec, hsp⟩ := trimRight_decomp s
  conv_rhs => rw [hdec]
  rw [nonBlankT_append_spaces hsp]

theorem nonBlankT_cons_space {c : Char} (h : isSpaceCh c = true) (s : Str) :
    nonBlankT (c :: s) = nonBlankT s := by
  by_cases hc : c = '\n'
  · subst hc
    rw [nonBlankT, splitLines_cons_nl]
    simp [trim_nil, nonBlankT]
  · rw [nonBlankT, splitLines_cons_of_ne hc]
    match hsp : splitLines s with
    | [] =>
      have hs : s = [] := splitLines_eq_nil_iff.mp hsp
      subst hs
      have htr : trim [c] = [] := by
        have := trim_cons_of_space h ([] : Str)
        simpa [trim_nil] using this
      simp [htr, nonBlankT, splitLines]
    | l :: ls =>
      simp only [List.headD_cons, List.tail_cons, List.map_cons, List.filter_cons]
      rw [trim_cons_of_space h]
      conv_rhs => rw [nonBlankT, hsp]
      simp [List.filter_cons]

theorem nonBlankT_trimLeft (s : Str) : nonBlankT (trimLeft s) = nonBlankT s := by
  induction s with
  | nil => rfl
  | cons c s ih =>
    by_cases hc : isSpaceCh c = true
    · rw [trimLeft_cons_of_space hc, ih, nonBlankT_cons_space hc]
    · rw [trimLeft_cons_of_not (Bool.eq_false_iff.mpr hc)]

theorem nonBlankT_trim (s : Str) : nonBlankT (trim s) = nonBlankT s := by
  rw [trim, nonBlankT_trimLeft, nonBlankT_trimRight]

theorem splitLines_single {g : Str} (h : '\n' ∉ g) :
    splitLines g = if g.isEmpty then [] else [g] := by
  induction g with
  | nil => rfl
  | cons c g ih =>
    have hc : ¬ c = '\n' := by
      intro hh
      exact h (by simp [hh])
    rw [splitLines_cons_of_ne hc, ih (fun hm => h (by simp [hm]))]
    match g with
    | [] => simp
    | d :: g' => simp

theorem splitLines_append_nl {g : Str} (h : '\n' ∉ g) (t : Str) :
    splitLines (g ++ '\n' :: t) = g :: splitLines t := by
  induction g with
  | nil => exact splitLines_cons_nl t
  | cons c g ih =>
    have hc : ¬ c = '\n' := by
      intro hh
      exact h (by simp [hh])
    rw [List.cons_append, splitLines_cons_of_ne hc, ih (fun hm => h (by simp [hm]))]
    simp

theorem nonBlankT_intercalate {gs : List Str} (h : ∀ g ∈ gs, '\n' ∉ g) :
    nonBlankT (intercalateNl gs) = (gs.map trim).filter (fun l => !l.isEmpty) := by
  induction gs with
  | nil => rfl
  | cons g gs ih =>
    match gs with
    | [] =>
      have hint : intercalateNl [g] = g := rfl
      rw [hint, nonBlankT, splitLines_single (h g (by simp))]
      by_cases hg : g.isEmpty = true
      · rw [if_pos hg]
        rw [List.isEmpty_iff] at hg
        subst hg
        simp [trim_nil]
      · rw [if_neg hg]
    | g' :: gs' =>
      have hint : intercalateNl (g :: g' :: gs') = g ++ '\n' :: intercalateNl (g' :: gs') := rfl
      rw [hint, nonBlankT, splitLines_append_nl (h g (by simp))]
      have ihr := ih (fun x hx => h x (by simp [hx]))
      rw [nonBlankT] at ihr
      simp only [List.map_cons, List.filter_cons]
      rw [ihr]
      simp only [List.map_cons, List.filter_cons]

theorem splitLines_no_nl (s : Str) : ∀ l ∈ splitLines s, '\n' ∉ l := by
  induction s with
  | nil => simp [splitLines]
  | cons c s ih =>
    by_cases hc : c = '\n'
    · subst hc
      rw [splitLines_cons_nl]
      intro l hl
      rcases List.mem_cons.mp hl with h1 | h1
      · subst h1
        simp
      · exact ih l h1
    · rw [splitLines_cons_of_ne hc]
      intro l hl
      rcases List.mem_cons.mp hl with h1 | h1
      · subst h1
        intro hm
        rcases List.mem_cons.mp hm with h2 | h2
        · exact hc h2.symm
        · match hsp : splitLines s with
          | [] =>
            rw [hsp] at h2
            simp at h2
          | a :: as =>
            rw [hsp] at h2
            exact ih a (by simp [hsp]) h2
      · refine ih l ?_
        match hsp : splitLines s with
        | [] =>
          rw [hsp] at h1
          simp at h1
        | a :: as =>
          rw [hsp] at h1
          simp only [List.tail_cons] at h1
          exact List.mem_cons_of_mem a h1



/-- A chunk as produced by CodeChunker: semantic_scope, hierarchical_context
and content. -/
structure Chunk where
  semanticScope : Str
  hierarchicalContext : Str
  content : Str
deriving DecidableEq, Repr

/-- Section chunk constructor used by chunk_procedural_code. -/
def mkSectionChunk (sectionName filename content : Str) : Chunk :=
  ⟨lit "section: " ++ sectionName,
   filename ++ lit " > section > " ++ sectionName,
   content⟩

/-- Regex match for an import-style line: anchored (import|from) then one or
more whitespace then a word character, applied to the stripped line. -/
def matchImportLine (s : Str) : Bool :=
  let afterKw : Str → Bool := fun rest =>
    match rest with
    | c :: _ =>
      isSpaceCh c &&
        (match rest.dropWhile isSpaceCh with
         | d :: _ => isWordCh d
         | [] => false)
    | [] => false
  (List.isPrefixOf (lit "import") s && afterKw (s.drop 6)) ||
  (List.isPrefixOf (lit "from") s && afterKw (s.drop 4))

/-- Regex match for a heading comment: three or more leading hash marks. -/
def matchHashes3 (s : Str) : Bool :=
  (s.takeWhile (fun c => c = '#')).length ≥ 3

/-- State machine implementing the substitution that removes every run of
hash marks together with the whitespace following it (state 0: copying,
state 1: inside a hash run, state 2: inside the whitespace after a run). -/
def subHashAux : Nat → Str → Str
  | _, [] => []
  | 0, c :: r => if c = '#' then subHashAux 1 r else c :: subHashAux 0 r
  | 1, c :: r =>
    if c = '#' then subHashAux 1 r
    else if isSpaceCh c then subHashAux 2 r
    else c :: subHashAux 0 r
  | _, c :: r =>
    if isSpaceCh c then subHashAux 2 r
    else if c = '#' then subHashAux 1 r
    else c :: subHashAux 0 r

/-- Removal of hash runs and the whitespace after each run, as the header
extraction does before slugifying the heading text. -/
def subHashRuns (s : Str) : Str := subHashAux 0 s

/-- Regex match for a line made of hash marks only. -/
def allHashes (s : Str) : Bool := !s.isEmpty && s.all (fun c => c = '#')

/-- Anchored match: with, one or more whitespace, then a tf. or torch.
namespace token. -/
def matchWithTfTorch (s : Str) : Bool :=
  List.isPrefixOf (lit "with") s &&
    (match s.drop 4 with
     | c :: _ =>
       isSpaceCh c &&
         (let r := (s.drop 4).dropWhile isSpaceCh
          List.isPrefixOf (lit "tf.") r || List.isPrefixOf (lit "torch.") r)
     | [] => false)

/-- Anchored match: with, whitespace, then tf.Session. -/
def matchWithTfSession (s : Str) : Bool :=
  List.isPrefixOf (lit "with") s &&
    (match s.drop 4 with
     | c :: _ =>
       isSpaceCh c && List.isPrefixOf (lit "tf.Session") ((s.drop 4).dropWhile isSpaceCh)
     | [] => false)

/-- Anchored match: for followed by whitespace. -/
def matchForLoop (s : Str) : Bool :=
  List.isPrefixOf (lit "for") s &&
    (match s.drop 3 with
     | c :: _ => isSpaceCh c
     | [] => false)

/-- Helper: a literal token possibly followed by whitespace and an equals
sign (the t1 =, TRAIN =, noise_mag = alternatives). -/
def matchAssignGlue (tok : String) (s : Str) : Bool :=
  List.isPrefixOf (lit tok) s &&
    (match (s.drop (lit tok).length).dropWhile isSpaceCh with
     | '=' :: _ => true
     | _ => false)

/-- The curated script-glue line alternatives of the heuristic segmenter. -/
def matchScriptGlue (s : Str) : Bool :=
  matchAssignGlue "t1" s ||
  (List.isPrefixOf (lit "if") s &&
    (match s.drop 2 with
     | c :: _ => isSpaceCh c && List.isPrefixOf (lit "__name__") ((s.drop 2).dropWhile isSpaceCh)
     | [] => false)) ||
  List.isPrefixOf (lit "print(") s ||
  matchAssignGlue "TRAIN" s ||
  matchAssignGlue "noise_mag" s ||
  List.isPrefixOf (lit "modeldir") s ||
  List.isPrefixOf (lit "np.") s ||
  List.isPrefixOf (lit "os.") s ||
  List.isPrefixOf (lit "tools.") s ||
  List.isPrefixOf (lit "tf.") s

/-- Is a character a quote mark (single or double). -/
def isQuoteCh (c : Char) : Bool := c = '\'' || c = '"'

/-- First quoted literal on a line (the findall for quote-delimited text,
keeping only the first match). -/
def firstQuoted (s : Str) : Option Str :=
  match s.dropWhile (fun c => !isQuoteCh c) with
  | [] => none
  | _ :: r =>
    if (r.dropWhile (fun c => !isQuoteCh c)).isEmpty then none
    else some (r.takeWhile (fun c => !isQuoteCh c))

/-- Mutable scan state of chunk_procedural_code: accumulated chunks, the
lines of the current section, and the current section name. -/
structure ProcState where
  chunks : List Chunk
  current : List Str
  sectionName : Str

/-- The flush closure of chunk_procedural_code: emit the current lines as a
section chunk when there are any. -/
def flushChunks (filename : Str) (st : ProcState) : List Chunk :=
  if st.current.isEmpty then st.chunks
  else st.chunks ++ [mkSectionChunk st.sectionName filename (trim (intercalateNl st.current))]

/-- One iteration of the line loop of chunk_procedural_code. -/
def procStep (filename : Str) (st : ProcState) (line : Str) : ProcState :=
  let stripped := trim line
  if stripped.isEmpty then
    ⟨st.chunks, st.current ++ [line], st.sectionName⟩
  else if matchImportLine stripped then
    if st.sectionName = lit "imports" then
      ⟨st.chunks, st.current ++ [line], st.sectionName⟩
    else
      ⟨flushChunks filename st, [line], lit "imports"⟩
  else if matchHashes3 stripped then
    if (trim (subHashRuns stripped)).isEmpty || allHashes stripped then
      ⟨st.chunks, st.current ++ [line], st.sectionName⟩
    else
      ⟨flushChunks filename st, [line],
        (toLowerS (trim (subHashRuns stripped))).map (fun c => if c = ' ' then '_' else c)⟩
  else if matchWithTfTorch stripped then
    ⟨flushChunks filename st, [line], (firstQuoted stripped).getD (lit "block")⟩
  else if matchWithTfSession stripped || matchForLoop stripped then
    ⟨flushChunks filename st, [line], lit "training_loop"⟩
  else if matchScriptGlue stripped then
    if st.sectionName = lit "main_body" then
      ⟨st.chunks, st.current ++ [line], st.sectionName⟩
    else
      ⟨flushChunks filename st, [line], lit "main_body"⟩
  else
    ⟨st.chunks, st.current ++ [line], st.sectionName⟩

/-- CodeChunker.chunk_procedural_code: the heuristic segmenter. -/
def chunkProceduralCode (code filename : Str) : List Chunk :=
  let lines := splitLines code
  let st := lines.foldl (procStep filename) ⟨[], [], lit "main_body"⟩
  let chunks := flushChunks filename st
  if chunks.isEmpty then [mkSectionChunk (lit "main_body") filename (trim code)]
  else chunks

/-- A top-level statement of a parsed Python module, carrying exactly the
data chunk_structured_code reads from an ast node: its kind, name, lineno
and end_lineno. -/
inductive PyTopStmt where
  | functionDef (name : Str) (lineno endLineno : Nat)
  | asyncFunctionDef (name : Str) (lineno endLineno : Nat)
  | classDef (name : Str) (lineno endLineno : Nat)
  | otherStmt (lineno endLineno : Nat)
deriving DecidableEq, Repr

/-- Covered line-index intervals, each a half-open range. -/
def coveredMem (covered : List (Nat × Nat)) (i : Nat) : Bool :=
  covered.any (fun p => p.1 ≤ i && i < p.2)

/-- One iteration of the tree.body loop of chunk_structured_code. -/
def structStep (lines : List Str) (filename : Str)
    (acc : List Chunk × List (Nat × Nat)) (node : PyTopStmt) :
    List Chunk × List (Nat × Nat) :=
  match node with
  | .functionDef name lineno endLineno =>
    let s := lineno - 1
    let body := intercalateNl ((lines.drop s).take (endLineno - s))
    (acc.1 ++ [⟨lit "function: " ++ name, filename ++ lit " > function " ++ name, trim body⟩],
     acc.2 ++ [(s, endLineno)])
  | .asyncFunctionDef name lineno endLineno =>
    let s := lineno - 1
    let body := intercalateNl ((lines.drop s).take (endLineno - s))
    (acc.1 ++ [⟨lit "function: " ++ name, filename ++ lit " > function " ++ name, trim body⟩],
     acc.2 ++ [(s, endLineno)])
  | .classDef name lineno endLineno =>
    let s := lineno - 1
    let body := intercalateNl ((lines.drop s).take (endLineno - s))
    (acc.1 ++ [⟨lit "class: " ++ name, filename ++ lit " > class " ++ name, trim body⟩],
     acc.2 ++ [(s, endLineno)])
  | .otherStmt _ _ => acc

/-- CodeChunker.chunk_structured_code: parse outcome is supplied as an
optional top-level statement list (none models a SyntaxError from
ast.parse, which the code catches by falling back to the heuristic
segmenter). -/
def chunkStructuredCode (parse : Option (List PyTopStmt)) (code filename : Str) : List Chunk :=
  match parse with
  | none => chunkProceduralCode code filename
  | some body =>
    let lines := splitLines code
    let acc := body.foldl (structStep lines filename) ([], [])
    let mainBodyLines :=
      ((lines.enum).filter (fun p => !coveredMem acc.2 p.1 && !(trim p.2).isEmpty)).map Prod.snd
    if mainBodyLines.isEmpty then acc.1
    else acc.1 ++ chunkProceduralCode (intercalateNl mainBodyLines) filename

/-- CodeChunker.extract_chunks: the dispatcher.  The read outcome is an
optional text (none models the exception caught by the read guard); isPy
says whether the file suffix is .py; parse is the ast.parse outcome used on
the Python path. -/
def extractChunks (readResult : Option Str) (isPy : Bool)
    (parse : Option (List PyTopStmt)) (filename : Str) : List Chunk :=
  match readResult with
  | none => []
  | some code =>
    if isPy then chunkStructuredCode parse code filename
    else chunkProceduralCode code filename


/- The coverage invariant of the heuristic segmenter. -/

/-- The trimmed non-blank line content contributed by a chunk. -/
def chunkNB (ch : Chunk) : List Str := nonBlankT ch.content

/-- The trimmed non-blank line content held by a scan state: lines already
flushed into chunks followed by the lines of the open section. -/
def stNB (st : ProcState) : List Str :=
  ((st.chunks.map chunkNB).flatten) ++ (st.current.map trim).filter (fun l => !l.isEmpty)

theorem flush_nb (filename : Str) (st : ProcState)
    (h : ∀ l ∈ st.current, '\n' ∉ l) :
    ((flushChunks filename st).map chunkNB).flatten = stNB st := by
  rw [flushChunks]
  by_cases hc : st.current.isEmpty = true
  · rw [if_pos hc, stNB]
    rw [List.isEmpty_iff] at hc
    rw [hc]
    simp
  · rw [if_neg hc, stNB]
    simp only [List.map_append, List.flatten_append, List.map_cons, List.map_nil,
      List.flatten_cons, List.flatten_nil, List.append_nil]
    congr 1
    rw [chunkNB, mkSectionChunk]
    rw [nonBlankT_trim, nonBlankT_intercalate h]

theorem procStep_shape (filename : Str) (st : ProcState) (line : Str) :
    ∃ (nm : Str),
      procStep filename st line = ⟨st.chunks, st.current ++ [line], nm⟩ ∨
      procStep filename st line = ⟨flushChunks filename st, [line], nm⟩ := by
  rw [procStep]
  split_ifs <;>
    first
      | exact ⟨st.sectionName, Or.inl rfl⟩
      | exact ⟨lit "imports", Or.inr rfl⟩
      | exact ⟨(toLowerS (trim (subHashRuns (trim line)))).map
          (fun c => if c = ' ' then '_' else c), Or.inr rfl⟩
      | exact ⟨(firstQuoted (trim line)).getD (lit "block"), Or.inr rfl⟩
      | exact ⟨lit "training_loop", Or.inr rfl⟩
      | exact ⟨lit "main_body", Or.inr rfl⟩

theorem procStep_nb (filename : Str) (st : ProcState) (line : Str)
    (hcur : ∀ l ∈ st.current, '\n' ∉ l) (hline : '\n' ∉ line) :
    stNB (procStep filename st line) =
      stNB st ++ ([trim line].filter (fun l => !l.isEmpty)) ∧
    ∀ l ∈ (procStep filename st line).current, '\n' ∉ l := by
  obtain ⟨nm, hshape | hshape⟩ := procStep_shape filename st line
  · rw [hshape]
    constructor
    · rw [stNB, stNB]
      simp [List.filter_append]
    · intro l hl
      rcases List.mem_append.mp hl with h1 | h1
      · exact hcur l h1
      · rw [List.mem_singleton.mp h1]
        exact hline
  · rw [hshape]
    constructor
    · rw [stNB]
      have hfl := flush_nb filename st hcur
      simp only at hfl ⊢
      rw [hfl]
      simp [List.filter_append]
    · intro l hl
      rw [List.mem_singleton.mp hl]
      exact hline

theorem foldl_nb (filename : Str) (lines : List Str) :
    ∀ (st : ProcState),
      (∀ l ∈ lines, '\n' ∉ l) → (∀ l ∈ st.current, '\n' ∉ l) →
      stNB (lines.foldl (procStep filename) st) =
        stNB st ++ (lines.map trim).filter (fun l => !l.isEmpty) ∧
      ∀ l ∈ (lines.foldl (procStep filename) st).current, '\n' ∉ l := by
  induction lines with
  | nil =>
    intro st _ hcur
    exact ⟨by simp, hcur⟩
  | cons line rest ih =>
    intro st hlines hcur
    have hline : '\n' ∉ line := hlines line (by simp)
    have hrest : ∀ l ∈ rest, '\n' ∉ l := fun l hl => hlines l (by simp [hl])
    obtain ⟨hstep, hstepcur⟩ := procStep_nb filename st line hcur hline
    rw [List.foldl_cons]
    obtain ⟨hfold, hfoldcur⟩ := ih (procStep filename st line) hrest hstepcur
    refine ⟨?_, hfoldcur⟩
    rw [hfold, hstep, List.append_assoc]
    congr 1
    rw [List.map_cons,
      show trim line :: List.map trim rest = [trim line] ++ List.map trim rest from rfl,
      List.filter_append]

theorem chunkProcedural_covers (code filename : Str) :
    ((chunkProceduralCode code filename).map chunkNB).flatten = nonBlankT code := by
  show ((if (flushChunks filename
            ((splitLines code).foldl (procStep filename) ⟨[], [], lit "main_body"⟩)).isEmpty then
          [mkSectionChunk (lit "main_body") filename (trim code)]
        else flushChunks filename
            ((splitLines code).foldl (procStep filename) ⟨[], [], lit "main_body"⟩)).map
        chunkNB).flatten = nonBlankT code
  have hnl : ∀ l ∈ splitLines code, '\n' ∉ l := splitLines_no_nl code
  have h0 : ∀ l ∈ (⟨[], [], lit "main_body"⟩ : ProcState).current, '\n' ∉ l := by
    intro l hl
    simp at hl
  obtain ⟨hfold, hfoldcur⟩ :=
    foldl_nb filename (splitLines code) ⟨[], [], lit "main_body"⟩ hnl h0
  have hflush := flush_nb filename
    ((splitLines code).foldl (procStep filename) ⟨[], [], lit "main_body"⟩) hfoldcur
  by_cases he : (flushChunks filename
      ((splitLines code).foldl (procStep filename) ⟨[], [], lit "main_body"⟩)).isEmpty = true
  · rw [if_pos he]
    show chunkNB (mkSectionChunk (lit "main_body") filename (trim code)) ++ [] = nonBlankT code
    rw [List.append_nil, chunkNB, mkSectionChunk]
    exact nonBlankT_trim code
  · rw [if_neg he, hflush, hfold]
    have hinit : stNB ⟨[], [], lit "main_body"⟩ = [] := rfl
    rw [hinit, List.nil_append]
    rfl

theorem chunkProcedural_ne_nil (code filename : Str) :
    chunkProceduralCode code filename ≠ [] := by
  show (if (flushChunks filename
            ((splitLines code).foldl (procStep filename) ⟨[], [], lit "main_body"⟩)).isEmpty then
          [mkSectionChunk (lit "main_body") filename (trim code)]
        else flushChunks filename
            ((splitLines code).foldl (procStep filename) ⟨[], [], lit "main_body"⟩)) ≠ []
  by_cases he : (flushChunks filename
      ((splitLines code).foldl (procStep filename) ⟨[], [], lit "main_body"⟩)).isEmpty = true
  · rw [if_pos he]
    simp
  · rw [if_neg he]
    intro hcontra
    rw [hcontra] at he
    exact he rfl

/-- Claim C8, counterexample: chunk contents are stripped at section
boundaries, so an indented source line is not reproduced verbatim.  For the
single-line input of two spaces and an x, the only chunk content is the
bare x, while the only non-blank source line keeps its indentation; the
concatenated chunk contents therefore do not reproduce the source line. -/
theorem claim_C8_counterexample :
    (chunkProceduralCode (lit "  x") (lit "f.py")).map Chunk.content = [lit "x"] ∧
    (splitLines (lit "  x")).filter (fun l => !(trim l).isEmpty) = [lit "  x"] ∧
    (lit "x" : Str) ≠ lit "  x" := by decide

/-- Claim C8, amended: for every input processed by the heuristic segmenter,
concatenating the chunk contents in output order reproduces every non-blank
source line exactly once in the original relative order, with lines compared
after trimming surrounding whitespace (the segmenter strips whitespace at
the two ends of each section's content). -/
theorem claim_C8_chunker_line_coverage (code filename : Str) :
    ((chunkProceduralCode code filename).map (fun ch => nonBlankT ch.content)).flatten =
      nonBlankT code :=
  chunkProcedural_covers code filename

/-- Claim C6, counterexample: a readable Python file consisting of a single
newline is non-empty, parses successfully to an empty module, and the
chunker returns the empty list for it, so non-empty file text does not
always yield at least one chunk. -/
theorem claim_C6_counterexample :
    extractChunks (some (lit "\n")) true (some []) (lit "a.py") = [] ∧
    (lit "\n" : Str) ≠ [] := by decide

/-- Claim C6, amended: any input handed to the heuristic segmenter yields at
least one chunk — in particular a file whose structural parse fails is
dispatched entirely to the heuristic segmenter and never produces an empty
list; but a successfully parsed file whose uncovered lines are all blank can
produce an empty list even for non-empty text. -/
theorem claim_C6_heuristic_nonempty (code filename : Str) :
    chunkStructuredCode none code filename = chunkProceduralCode code filename ∧
    chunkProceduralCode code filename ≠ [] :=
  ⟨rfl, chunkProcedural_ne_nil code filename⟩

/-- Claim C7: the chunker never propagates a failure to its caller — an
unreadable file yields the empty list, and a readable file always yields a
chunk list even when structural parsing fails (the parse failure is caught
and the whole file is heuristically segmented, giving a non-empty result). -/
theorem claim_C7_extract_chunks_never_raises (isPy : Bool)
    (parse : Option (List PyTopStmt)) (filename code : Str) :
    extractChunks none isPy parse filename = [] ∧
    extractChunks (some code) isPy none filename ≠ [] := by
  refine ⟨rfl, ?_⟩
  cases isPy with
  | false => exact chunkProcedural_ne_nil code filename
  | true =>
    show chunkStructuredCode none code filename ≠ []
    exact chunkProcedural_ne_nil code filename

/- ------------------------------------------------------------------
Symbol Graph Extractor (managers/symbol.py)
------------------------------------------------------------------ -/

/- Python ast nodes, restricted to the node kinds SymbolExtractor inspects.
Child sequences use the mutual PyNodes spine so that the node-count measure
is structurally recursive. -/
mutual
/-- Python ast node: modules, plain and from-imports (with their alias
names flattened to strings), function and class definitions, expression
statements, call expressions, names and attribute accesses; any other
construct appears as an opaque node carrying its children. -/
inductive PyNode where
  | module (body : PyNodes)
  | importS (names : List String)
  | importFrom (moduleName : String) (names : List String)
  | functionDef (name : String) (body : PyNodes)
  | asyncFunctionDef (name : String) (body : PyNodes)
  | classDef (name : String) (bases : PyNodes) (body : PyNodes)
  | exprStmt (value : PyNode)
  | call (func : PyNode) (args : PyNodes)
  | nameE (id : String)
  | attributeE (value : PyNode) (attr : String)
  | otherNode (children : PyNodes)

/-- A spine of sibling ast nodes. -/
inductive PyNodes where
  | nil
  | cons (n : PyNode) (l : PyNodes)
end

/-- Build a child spine from a list. -/
def pyNodes : List PyNode → PyNodes
  | [] => .nil
  | n :: l => .cons n (pyNodes l)

/-- Flatten a child spine back to a list. -/
def pyNodesList : PyNodes → List PyNode
  | .nil => []
  | .cons n l => n :: pyNodesList l

mutual
/-- Total node count of a tree, the fuel bound for the walk. -/
def pyCount : PyNode → Nat
  | .module body => 1 + pyCountList body
  | .importS _ => 1
  | .importFrom _ _ => 1
  | .functionDef _ body => 1 + pyCountList body
  | .asyncFunctionDef _ body => 1 + pyCountList body
  | .classDef _ bases body => 1 + pyCountList bases + pyCountList body
  | .exprStmt v => 1 + pyCount v
  | .call f args => 1 + pyCount f + pyCountList args
  | .nameE _ => 1
  | .attributeE v _ => 1 + pyCount v
  | .otherNode children => 1 + pyCountList children

/-- Total node count of a child spine. -/
def pyCountList : PyNodes → Nat
  | .nil => 0
  | .cons n l => pyCount n + pyCountList l
end

/-- The child nodes of an ast node, in field order (ast.iter_child_nodes). -/
def pyChildren : PyNode → List PyNode
  | .module body => pyNodesList body
  | .importS _ => []
  | .importFrom _ _ => []
  | .functionDef _ body => pyNodesList body
  | .asyncFunctionDef _ body => pyNodesList body
  | .classDef _ bases body => pyNodesList bases ++ pyNodesList body
  | .exprStmt v => [v]
  | .call f args => f :: pyNodesList args
  | .nameE _ => []
  | .attributeE v _ => [v]
  | .otherNode children => pyNodesList children

/-- Breadth-first queue traversal of ast.walk, written with a fuel bound so
that the definition is structurally recursive; a fuel of at least the total
node count makes the scan complete. -/
def walkAux : Nat → List PyNode → List PyNode
  | 0, _ => []
  | _, [] => []
  | fuel + 1, n :: rest => n :: walkAux fuel (rest ++ pyChildren n)

/-- ast.walk over a root node: breadth-first order starting from the node
itself; the node count of the root is always enough fuel to finish the
scan. -/
def walkBFS (root : PyNode) : List PyNode := walkAux (pyCount root) [root]

/-- A symbol_links record as built by SymbolExtractor. -/
structure Link where
  repoId : Int
  sourceSymbol : String
  targetSymbol : String
  relationType : String
  filePath : String
deriving DecidableEq, Repr

/-- The deduplication key used when merging the static and LLM passes. -/
def linkKey (l : Link) : String × String × String :=
  (l.sourceSymbol, l.targetSymbol, l.relationType)

/-- Python str.strip with dots, used on the from-import target. -/
def stripDots (s : String) : String :=
  String.mk (((s.data.dropWhile (fun c => c = '.')).reverse.dropWhile
    (fun c => c = '.')).reverse)

/-- The calls recorded for one enclosing function: every Call reached by
walking the function node, keeping a Name's id or an Attribute's attribute
when it is non-empty. -/
def callsIn (repoId : Int) (funcName : String) (filePath : String)
    (subs : List PyNode) : List Link :=
  subs.flatMap fun sub =>
    match sub with
    | .call f _ =>
      match f with
      | .nameE id =>
        if id = "" then [] else [⟨repoId, funcName, id, "calls", filePath⟩]
      | .attributeE _ attr =>
        if attr = "" then [] else [⟨repoId, funcName, attr, "calls", filePath⟩]
      | _ => []
    | _ => []

/-- SymbolExtractor.extract_links_ast: the static pass.  The parse outcome
is supplied as an optional tree (none models the SyntaxError that the code
catches by returning an empty list).  fileName is the file's base name and
filePath its full path. -/
def extractLinksAst (tree : Option PyNode) (fileName filePath : String)
    (repoId : Int) : List Link :=
  match tree with
  | none => []
  | some t =>
    let nodes := walkBFS t
    let imports := nodes.flatMap fun n =>
      match n with
      | .importS names =>
        names.map fun a => (⟨repoId, fileName, a, "imports", filePath⟩ : Link)
      | .importFrom moduleName names =>
        names.map fun a =>
          (⟨repoId, fileName, stripDots (moduleName ++ "." ++ a), "imports", filePath⟩ : Link)
      | _ => []
    let calls := nodes.flatMap fun n =>
      match n with
      | .functionDef fname _ => callsIn repoId fname filePath (walkBFS n)
      | .asyncFunctionDef fname _ => callsIn repoId fname filePath (walkBFS n)
      | _ => []
    let inherits := nodes.flatMap fun n =>
      match n with
      | .classDef cname bases _ =>
        (pyNodesList bases).flatMap fun b =>
          match b with
          | .nameE id =>
            if id = "" then [] else [(⟨repoId, cname, id, "inherits", filePath⟩ : Link)]
          | .attributeE _ attr =>
            if attr = "" then [] else [(⟨repoId, cname, attr, "inherits", filePath⟩ : Link)]
          | _ => []
      | _ => []
    imports ++ calls ++ inherits

/-- Python's single-character split (str.split with a one-character
separator): no terminator semantics, the empty string gives one empty
field. -/
def splitOnChar (sep : Char) : Str → List Str
  | [] => [[]]
  | c :: rest =>
    if c = sep then [] :: splitOnChar sep rest
    else
      match splitOnChar sep rest with
      | [] => [[c]]
      | l :: ls => (c :: l) :: ls

/-- SymbolExtractor.extract_links_llm's response parsing: keep the lines
holding a pipe that split into exactly three trimmed fields whose relation
is one of the three recognized kinds. -/
def parseLlmLinks (res : String) (repoId : Int) (filePath : String) : List Link :=
  (splitLines res.data).filterMap fun line =>
    if !containsSub line (lit "|") then none
    else
      let parts := (splitOnChar '|' line).map (fun p => String.mk (trim p))
      match parts with
      | [src, tgt, rel] =>
        if rel = "calls" ∨ rel = "imports" ∨ rel = "inherits" then
          some ⟨repoId, src, tgt, rel, filePath⟩
        else none
      | _ => none

/-- Match of the import-alias pattern anywhere in the code: the token
import, whitespace, a word, whitespace, the literal as, whitespace and a
word character. -/
def importAsAt (t : Str) : Bool :=
  List.isPrefixOf (lit "import") t &&
    (let r := t.drop 6
     match r with
     | c :: _ =>
       isSpaceCh c &&
         (let r1 := r.dropWhile isSpaceCh
          match r1 with
          | d :: _ =>
            isWordCh d &&
              (let r2 := r1.dropWhile isWordCh
               match r2 with
               | e :: _ =>
                 isSpaceCh e &&
                   (match r2.dropWhile isSpaceCh with
                    | 'a' :: 's' :: r4 =>
                      (match r4 with
                       | f :: _ =>
                         isSpaceCh f &&
                           (match r4.dropWhile isSpaceCh with
                            | g :: _ => isWordCh g
                            | [] => false)
                       | [] => false)
                    | _ => false)
               | [] => false)
          | [] => false)
     | [] => false)

/-- The augmentation trigger of extract_links: an aliased import or one of
the torch, tf, np namespace prefixes somewhere in the code. -/
def triggerRegex (code : Str) : Bool :=
  code.tails.any importAsAt ||
  containsSub code (lit "torch.") ||
  containsSub code (lit "tf.") ||
  containsSub code (lit "np.")

/-- Insertion into an insertion-ordered dictionary keyed by the
deduplication key: a repeated key overwrites the stored value in place, a
new key is appended (Python dict comprehension semantics). -/
def dictInsert (m : List ((String × String × String) × Link))
    (k : String × String × String) (v : Link) :
    List ((String × String × String) × Link) :=
  if m.any (fun p => p.1 = k) then
    m.map (fun p => if p.1 = k then (k, v) else p)
  else m ++ [(k, v)]

/-- The merge of extract_links: a dict comprehension over the concatenated
static and LLM links keyed by (source, target, relation), then the value
list. -/
def mergeDedup (links : List Link) : List Link :=
  (links.foldl (fun m l => dictInsert m (linkKey l) l) []).map Prod.snd

/-- SymbolExtractor.extract_links: static pass always; when the trigger
pattern matches the code, the LLM pass (whose raw response is supplied, the
none case modelling the caught generate failure) is parsed and the union is
deduplicated by key; otherwise the raw static links are returned. -/
def extractLinks (code : Str) (tree : Option PyNode) (llmResp : Option String)
    (repoId : Int) (fileName filePath : String) : List Link :=
  let astLinks := extractLinksAst tree fileName filePath repoId
  if triggerRegex code then
    let llmLinks :=
      match llmResp with
      | none => []
      | some res => parseLlmLinks res repoId filePath
    mergeDedup (astLinks ++ llmLinks)
  else astLinks

/-- The read guard of SymbolExtractor.extract_links: a failed file read is
caught and yields the empty list, otherwise the pipeline above runs on the
decoded text. -/
def extractLinksFromRead (readResult : Option Str) (tree : Option PyNode)
    (llmResp : Option String) (repoId : Int) (fileName filePath : String) : List Link :=
  match readResult with
  | none => []
  | some code => extractLinks code tree llmResp repoId fileName filePath

theorem dictInsert_keys (m : List ((String × String × String) × Link))
    (k : String × String × String) (v : Link) :
    (dictInsert m k v).map Prod.fst =
      if m.any (fun p => p.1 = k) then m.map Prod.fst else m.map Prod.fst ++ [k] := by
  rw [dictInsert]
  by_cases h : m.any (fun p => decide (p.1 = k)) = true
  · rw [if_pos h, if_pos h, List.map_map]
    refine List.map_congr_left ?_
    intro p _
    by_cases hp : p.1 = k
    · simp [hp]
    · simp [hp]
  · rw [if_neg h, if_neg h, List.map_append]
    rfl

theorem foldl_dict_nodup (links : List Link) :
    ∀ (m : List ((String × String × String) × Link)),
      (m.map Prod.fst).Nodup →
      ((links.foldl (fun m l => dictInsert m (linkKey l) l) m).map Prod.fst).Nodup := by
  induction links with
  | nil => intro m hm; exact hm
  | cons l links ih =>
    intro m hm
    rw [List.foldl_cons]
    refine ih (dictInsert m (linkKey l) l) ?_
    rw [dictInsert_keys]
    by_cases h : m.any (fun p => decide (p.1 = linkKey l)) = true
    · rw [if_pos h]
      exact hm
    · rw [if_neg h]
      rw [List.any_eq_true] at h
      push_neg at h
      refine List.Nodup.append hm (List.nodup_singleton _) ?_
      intro a ha hb
      rw [List.mem_singleton] at hb
      subst hb
      obtain ⟨p, hp, hpk⟩ := List.mem_map.mp ha
      exact h p hp (by simpa using hpk)

theorem foldl_dict_pairs (links : List Link) :
    ∀ (m : List ((String × String × String) × Link)),
      (∀ p ∈ m, p.1 = linkKey p.2) →
      ∀ p ∈ links.foldl (fun m l => dictInsert m (linkKey l) l) m, p.1 = linkKey p.2 := by
  induction links with
  | nil => intro m hm; exact hm
  | cons l links ih =>
    intro m hm
    rw [List.foldl_cons]
    refine ih (dictInsert m (linkKey l) l) ?_
    intro p hp
    rw [dictInsert] at hp
    by_cases h : m.any (fun p => decide (p.1 = linkKey l)) = true
    · rw [if_pos h] at hp
      obtain ⟨q, hq, hqp⟩ := List.mem_map.mp hp
      by_cases hqk : q.1 = linkKey l
      · rw [if_pos hqk] at hqp
        rw [← hqp]
      · rw [if_neg hqk] at hqp
        rw [← hqp]
        exact hm q hq
    · rw [if_neg h] at hp
      rcases List.mem_append.mp hp with h1 | h1
      · exact hm p h1
      · rw [List.mem_singleton] at h1
        rw [h1]

theorem mergeDedup_keys_nodup (links : List Link) :
    ((mergeDedup links).map linkKey).Nodup := by
  rw [mergeDedup, List.map_map]
  have hpairs := foldl_dict_pairs links [] (by intro p hp; simp at hp)
  have hkeys := foldl_dict_nodup links [] (by simp)
  have : (links.foldl (fun m l => dictInsert m (linkKey l) l) []).map (linkKey ∘ Prod.snd) =
      (links.foldl (fun m l => dictInsert m (linkKey l) l) []).map Prod.fst := by
    refine List.map_congr_left ?_
    intro p hp
    exact (hpairs p hp).symm
  rw [this]
  exact hkeys

/-- The module tree of the file holding one function f whose body calls g
twice (as parsed from the counterexample code below). -/
def dupCallTree : PyNode :=
  .module (pyNodes [.functionDef "f" (pyNodes
    [.exprStmt (.call (.nameE "g") .nil),
     .exprStmt (.call (.nameE "g") .nil)])])

/-- The counterexample file text: a function that calls the same target
twice and contains no aliased import and no recognized framework namespace
prefix, so the augmentation pass is not triggered. -/
def dupCallCode : Str := lit "def f():\n    g()\n    g()"

/-- Claim C1, counterexample: for a file whose one function calls the same
target twice and whose text does not match the augmentation trigger, the
extractor returns the raw static edges, which contain the key
(f, g, calls) twice — so the returned edge list is not deduplicated by
(source_symbol, target_symbol, relation_type) for every file. -/
theorem claim_C1_counterexample :
    ((extractLinks dupCallCode (some dupCallTree) none 1 "f.py" "repo/f.py").map
        linkKey).count ("f", "g", "calls") = 2 ∧
    ¬ ((extractLinks dupCallCode (some dupCallTree) none 1 "f.py" "repo/f.py").map
        linkKey).Nodup := by decide

/-- Claim C1, amended: whenever the augmentation trigger matches the file
text (aliased import or a recognized framework namespace prefix), the
merged output of the static and augmentation passes is deduplicated by
(source_symbol, target_symbol, relation_type): no key appears twice.  When
the trigger does not match, the raw static edges are returned and may
repeat a key. -/
theorem claim_C1_dedup_when_triggered (code : Str) (tree : Option PyNode)
    (llmResp : Option String) (repoId : Int) (fileName filePath : String)
    (h : triggerRegex code = true) :
    ((extractLinks code tree llmResp repoId fileName filePath).map linkKey).Nodup := by
  have hre : extractLinks code tree llmResp repoId fileName filePath =
      mergeDedup (extractLinksAst tree fileName filePath repoId ++
        (match llmResp with
         | none => []
         | some res => parseLlmLinks res repoId filePath)) := by
    show (if triggerRegex code then _ else _) = _
    rw [if_pos h]
  rw [hre]
  exact mergeDedup_keys_nodup _

/-- Claim C1, witness: a file containing the np namespace prefix triggers
the augmentation pass and the resulting edge list has pairwise distinct
deduplication keys. -/
theorem claim_C1_dedup_witness :
    triggerRegex (lit "np.x()") = true ∧
    ((extractLinks (lit "np.x()") (some dupCallTree) none 1 "f.py" "repo/f.py").map
        linkKey).Nodup :=
  ⟨by decide,
   claim_C1_dedup_when_triggered (lit "np.x()") (some dupCallTree) none 1 "f.py" "repo/f.py"
     (by decide)⟩

/- ------------------------------------------------------------------
Signal Router (managers/services/routing_manager.py)
------------------------------------------------------------------ -/

/-- Replacement of the two-character arrow token by a space, scanning left
to right without overlap. -/
def replaceArrow : Str → Str
  | [] => []
  | '-' :: '>' :: rest => ' ' :: replaceArrow rest
  | c :: rest => c :: replaceArrow rest

/-- Attempt to match the enumeration-marker pattern (optional whitespace,
one or more digits, a closing parenthesis, optional whitespace) at the
start of the text, returning the remainder after the match. -/
def tryEnumMatch (s : Str) : Option Str :=
  let r1 := s.dropWhile isSpaceCh
  let ds := r1.takeWhile Char.isDigit
  if ds.isEmpty then none
  else
    match r1.drop ds.length with
    | ')' :: r2 => some (r2.dropWhile isSpaceCh)
    | _ => none

/-- Leftmost non-overlapping substitution of enumeration markers by a
space.  The fuel is bounded by the input length, which always suffices
because every step consumes at least one character. -/
def subEnumAux : Nat → Str → Str
  | 0, s => s
  | _ + 1, [] => []
  | fuel + 1, c :: rest =>
    match tryEnumMatch (c :: rest) with
    | some r => ' ' :: subEnumAux fuel r
    | none => c :: subEnumAux fuel rest

/-- The enumeration-marker substitution of _normalize_action_text. -/
def subEnum (s : Str) : Str := subEnumAux s.length s

/-- Collapse of whitespace runs into single spaces. -/
def collapseWs : Str → Str
  | [] => []
  | [c] => [if isSpaceCh c then ' ' else c]
  | c :: d :: rest =>
    if isSpaceCh c then
      if isSpaceCh d then collapseWs (d :: rest)
      else ' ' :: collapseWs (d :: rest)
    else c :: collapseWs (d :: rest)

/-- RoutingManager._normalize_action_text: lowercase, drop arrow tokens,
drop enumeration markers, collapse whitespace, strip. -/
def normalizeActionText (text : Str) : Str :=
  if text.isEmpty then []
  else trim (collapseWs (subEnum (replaceArrow (toLowerS text))))

/-- The connective filler words stripped from each clause. -/
def connectiveWords : List String := ["그러면", "그럼", "그리고", "그런데"]

/-- Match one of the connective words at the start of the text under word
boundaries on both sides (the boundary to the left is supplied as the
preceding character); returns the remainder and the last character of the
matched word. -/
def matchConnectiveAt (prev : Option Char) (s : Str) : Option (Str × Char) :=
  connectiveWords.findSome? fun w =>
    let wc := lit w
    if List.isPrefixOf wc s &&
        (match prev with | none => true | some p => !isWordCh p) then
      let rest := s.drop wc.length
      if (match rest.head? with | none => true | some n => !isWordCh n) then
        match wc.getLast? with
        | some lastC => some (rest, lastC)
        | none => none
      else none
    else none

/-- Leftmost non-overlapping removal of boundary-delimited connective
words; the fuel is bounded by the input length, which always suffices. -/
def subConnAux : Nat → Option Char → Str → Str
  | 0, _, s => s
  | _ + 1, _, [] => []
  | fuel + 1, prev, c :: rest =>
    match matchConnectiveAt prev (c :: rest) with
    | some (r, lastC) => subConnAux fuel (some lastC) r
    | none => c :: subConnAux fuel (some c) rest

/-- The connective-word removal applied to each clause. -/
def removeConnectives (s : Str) : Str := subConnAux s.length none s

/-- Clause separators: newlines and sentence punctuation.  The source
splits on runs of newlines as one separator; splitting on each newline
yields extra empty raw segments, which the stripping below drops, giving
the same clause list. -/
def isClauseSep (c : Char) : Bool := c = '\n' || c = '.' || c = '?' || c = '!'

/-- Raw clause segmentation (the split of CLAUSE_SPLIT_PATTERN). -/
def splitClausesRaw : Str → List Str
  | [] => [[]]
  | c :: rest =>
    if isClauseSep c then [] :: splitClausesRaw rest
    else
      match splitClausesRaw rest with
      | [] => [[c]]
      | l :: ls => (c :: l) :: ls

/-- RoutingManager._split_action_clauses: split, strip, drop empties,
remove connectives, strip again; fall back to the whole text when nothing
survives. -/
def splitActionClauses (text : Str) : List Str :=
  if text.isEmpty then []
  else
    let clauses := (splitClausesRaw text).filterMap fun seg =>
      let s1 := trim seg
      if s1.isEmpty then none
      else
        let s2 := trim (removeConnectives s1)
        if s2.isEmpty then none else some s2
    if clauses.isEmpty then [text] else clauses

/-- The curated read-keyword set of RoutingManager. -/
def readKeywords : List String :=
  ["조회", "읽어", "열어", "내용", "보여줘", "확인", "살펴",
   "inspect", "show", "display", "list", "어디", "무엇"]

/-- The curated modify-keyword set of RoutingManager. -/
def modifyKeywords : List String :=
  ["수정", "변경", "바꿔", "바꾸", "바뀌", "교체", "덮어", "추가", "삭제",
   "적용", "업데이트", "갱신", "refactor", "replace", "update", "modify",
   "edit", "patch", "fix", "convert", "conversion", "변환", "옮겨", "이식"]

/-- RoutingManager._match_keywords: the keywords occurring as substrings,
in keyword order. -/
def matchKeywords (text : Str) (keywords : List String) : List String :=
  keywords.filter (fun kw => kw != "" && containsSub text (lit kw))

/-- One clause's record in the analysis output. -/
structure ClauseDetail where
  clause : Str
  readSignals : List String
  modifySignals : List String
deriving DecidableEq, Repr

/-- Stable insertion of a string into a sorted list. -/
def insertSorted (s : String) : List String → List String
  | [] => [s]
  | x :: xs => if decide (s ≤ x) then s :: x :: xs else x :: insertSorted s xs

/-- Ascending sort by code points, the model of Python sorted on strings. -/
def sortStrings : List String → List String
  | [] => []
  | x :: xs => insertSorted x (sortStrings xs)

/-- sorted(set(...)) of Python: drop duplicates, sort ascending. -/
def sortedDedup (l : List String) : List String := sortStrings l.dedup

/-- Python list repr for a list of strings, used in the reason text. -/
def reprStrList (l : List String) : String :=
  "[" ++ String.intercalate ", " (l.map (fun s => "'" ++ s ++ "'")) ++ "]"

/-- RoutingManager._build_clause_reason. -/
def buildClauseReason (details : List ClauseDetail) (prefer : String) : String :=
  match details.find?
      (fun d => !(if prefer = "modify" then d.modifySignals else d.readSignals).isEmpty) with
  | some d =>
    let signals := if prefer = "modify" then d.modifySignals else d.readSignals
    let sample := if d.clause.length > 60 then d.clause.take 57 ++ lit "..." else d.clause
    prefer ++ " signal " ++ reprStrList signals ++ " in '" ++ String.mk sample ++ "'"
  | none => prefer ++ " signals detected"

/-- The output record of _analyze_action_signals; the signal sets are
stored sorted, as Python's sorted(set) renders them. -/
structure ActionAnalysis where
  mode : String
  signalsRead : List String
  signalsModify : List String
  clauses : List ClauseDetail
  needsLlmTransformation : Bool
  reason : String
deriving DecidableEq, Repr

/-- RoutingManager._analyze_action_signals. -/
def analyzeActionSignals (userText : Str) : ActionAnalysis :=
  let clauses := splitActionClauses (normalizeActionText userText)
  let details := clauses.filterMap fun cl =>
    let r := matchKeywords cl readKeywords
    let m := matchKeywords cl modifyKeywords
    if !r.isEmpty || !m.isEmpty then some (⟨cl, r, m⟩ : ClauseDetail) else none
  let readHits := (clauses.map (fun cl => matchKeywords cl readKeywords)).flatten
  let modifyHits := (clauses.map (fun cl => matchKeywords cl modifyKeywords)).flatten
  let mode :=
    if !modifyHits.isEmpty then "read_then_modify"
    else if !readHits.isEmpty then "read_only"
    else "unknown"
  let reason :=
    if !modifyHits.isEmpty then buildClauseReason details "modify"
    else if !readHits.isEmpty then buildClauseReason details "read"
    else "no strong signals"
  ⟨mode, sortedDedup readHits, sortedDedup modifyHits, details,
   mode = "read_then_modify", reason⟩

/-- One step of the action plan. -/
structure PlanStep where
  id : String
  title : String
  description : String
deriving DecidableEq, Repr

/-- The action plan attached to the routing context. -/
structure ActionPlan where
  mode : String
  reason : String
  signalsRead : List String
  signalsModify : List String
  clauses : List ClauseDetail
  needsLlmTransformation : Bool
  steps : List PlanStep
  llmGuidance : String
deriving DecidableEq, Repr

/-- RoutingManager._build_action_plan. -/
def buildActionPlan (userText : Str) : ActionPlan :=
  let analysis := analyzeActionSignals userText
  let mode := analysis.mode
  let steps : List PlanStep :=
    if mode = "read_then_modify" then
      [⟨"read_context", "맥락 조회", "관련 파일이나 코드 블록을 도구로 열어 현재 상태를 파악합니다."⟩,
       ⟨"llm_modify", "LLM 수정", "조회한 내용을 바탕으로 LLM이 요청한 수정 사항(코드/설명/patch)을 생성합니다."⟩]
    else if mode = "read_only" then
      [⟨"read_context", "정보 조회", "필요한 파일이나 데이터를 열람해 사용자 질문에 필요한 정보를 수집합니다."⟩]
    else []
  let guidance :=
    if mode = "read_then_modify" then
      "도구로 읽어온 결과를 그대로 전달하지 말고, 사용자 요청에 따라 수정된 결과물을 LLM으로 작성하세요."
    else if mode = "read_only" then "조회한 내용을 기반으로 설명이나 요약만 제공하면 됩니다."
    else "요청에 맞춰 기본 응답만 생성하세요."
  ⟨mode, analysis.reason, analysis.signalsRead, analysis.signalsModify, analysis.clauses,
   mode = "read_then_modify", steps, guidance⟩

/-- The JSON record returned by the source router (the dict fields the
pipeline reads); an absent key is the none case.  Confidences are
rationals, the idealization of the floats. -/
structure SourceSignal where
  source : Option String
  confidence : Option ℚ
  reason : Option String
deriving DecidableEq, Repr

/-- The JSON record returned by the intent router. -/
structure IntentSignal where
  intent : Option String
  confidence : Option ℚ
  reason : Option String
deriving DecidableEq, Repr

/-- The safety router's record. -/
structure SafetySignal where
  overrideSource : Option String
  overrideIntent : Option String
  reason : String
deriving DecidableEq, Repr

/-- The externally supplied self-check record (confidence and freshness
flag, either possibly absent). -/
structure SelfCheck where
  confidence : Option ℚ
  freshnessNeed : Option String
deriving DecidableEq, Repr

/-- The per-conversation routing state read by the routers (the embedding
fields are replaced by the one similarity value the code derives from
them, passed separately). -/
structure RoutingState where
  lastSource : Option String
  lastIntent : Option String
deriving DecidableEq, Repr

/-- The aggregated routing context. -/
structure RoutingContext where
  finalSource : String
  finalIntent : String
  routingConfidence : ℚ
  notes : String
  freshnessNeeded : Bool
deriving DecidableEq, Repr

/-- DEFAULT_SOURCE of the source. -/
def defaultSourceSignal : SourceSignal := ⟨some "repo_chunks", some (3/10), none⟩

/-- DEFAULT_INTENT of the source. -/
def defaultIntentSignal : IntentSignal := ⟨some "lookup", some (3/10), none⟩

/-- DEFAULT_SAFETY of the source. -/
def defaultSafetySignal : SafetySignal := ⟨some "none", some "none", ""⟩

/-- Python truthiness of an optional string: present and non-empty. -/
def pyTruthyStrOpt (o : Option String) : Bool :=
  match o with
  | none => false
  | some s => s != ""

/-- Python's x or default on an optional string: the string when present
and non-empty, the default otherwise. -/
def pyOrStr (o : Option String) (d : String) : String :=
  match o with
  | none => d
  | some s => if s = "" then d else s

/-- The ordered explicit source-signal table of RoutingManager. -/
def explicitSourceSignals : List (String × List String) :=
  [("filesystem", ["filesystem", "local file", "파일시스템", "workspace", "/app"]),
   ("postgres", ["postgres", "database", "db", "sql"]),
   ("repo_chunks", ["repo", "코드베이스", "codebase"]),
   ("external_web", ["external_web", "web", "internet", "검색"]),
   ("direct_answer", ["direct", "chat", "general"])]

/-- The ordered explicit intent-signal table of RoutingManager. -/
def explicitIntentSignals : List (String × List String) :=
  [("lookup", ["lookup", "찾아", "search"]),
   ("read", ["read", "열어", "내용"]),
   ("summarize", ["summarize", "요약"]),
   ("explain", ["explain", "설명"]),
   ("schema_view", ["schema", "컬럼"])]

/-- RoutingManager._detect_explicit_signal: first label whose keyword list
has a case-insensitive substring hit, scanning labels and keywords in table
order; empty text yields nothing. -/
def detectExplicitSignal (text : Str) (vocab : List (String × List String)) : Option String :=
  if text.isEmpty then none
  else
    let lowered := toLowerS text
    vocab.findSome? fun entry =>
      entry.2.findSome? fun kw =>
        if containsSub lowered (toLowerS (lit kw)) then some entry.1 else none

/-- The continuity test: the similarity value exists and reaches the 0.65
threshold (the similarity of the current and stored query embeddings is
passed in as an optional rational). -/
def simContinuity (sim : Option ℚ) : Bool :=
  match sim with
  | none => false
  | some v => decide (65/100 ≤ v)

/-- RoutingManager._run_source_router: explicit keyword signal at 0.95,
else embedding continuity at 0.8, else the external classifier's parsed
output (none models an unparsable or empty response) or the default. -/
def runSourceRouter (userText : Str) (state : RoutingState) (sim : Option ℚ)
    (oracle : Option SourceSignal) : SourceSignal :=
  match detectExplicitSignal userText explicitSourceSignals with
  | some label => ⟨some label, some (95/100), some "explicit signal"⟩
  | none =>
    if simContinuity sim && pyTruthyStrOpt state.lastSource then
      ⟨state.lastSource, some (8/10), some "state continuity"⟩
    else
      match oracle with
      | some sig => sig
      | none => defaultSourceSignal

/-- RoutingManager._run_intent_router: explicit signal, else continuity
specialized by the last source, else classifier output or default. -/
def runIntentRouter (userText : Str) (state : RoutingState) (sim : Option ℚ)
    (oracle : Option IntentSignal) : IntentSignal :=
  match detectExplicitSignal userText explicitIntentSignals with
  | some label => ⟨some label, some (95/100), some "explicit signal"⟩
  | none =>
    if simContinuity sim && state.lastSource = some "postgres" then
      ⟨some "lookup", some (8/10), some "postgres continuity"⟩
    else if simContinuity sim &&
        (state.lastSource = some "filesystem" || state.lastSource = some "local file") then
      ⟨some "read", some (8/10), some "filesystem continuity"⟩
    else
      match oracle with
      | some sig => sig
      | none => defaultIntentSignal

/-- RoutingManager._run_safety_router. -/
def runSafetyRouter (userText : Str) (state : RoutingState) (sim : Option ℚ) : SafetySignal :=
  match detectExplicitSignal userText explicitSourceSignals with
  | some label => ⟨some label, some "none", "explicit source signal"⟩
  | none =>
    if simContinuity sim && pyTruthyStrOpt state.lastSource then
      ⟨some (state.lastSource.getD "none"), some (state.lastIntent.getD "none"),
       "state continuity"⟩
    else defaultSafetySignal

/-- The override condition of the aggregator: the value is present,
truthy and not the none marker. -/
def condOverride (o : Option String) : Bool :=
  match o with
  | none => false
  | some s => s != "" && s != "none"

/-- The self-check confidence read through the or-empty-dict guard. -/
def selfConfOf (sc : Option SelfCheck) : Option ℚ :=
  match sc with
  | none => none
  | some s => s.confidence

/-- The freshness flag read through the or-empty-dict guard. -/
def selfFreshOf (sc : Option SelfCheck) : Bool :=
  (match sc with | none => none | some s => s.freshnessNeed) = some "yes"

/-- Round-half-to-even on a scaled rational, the model of Python round. -/
def roundHalfEven (x : ℚ) : Int :=
  let f := ⌊x⌋
  let r := x - f
  if r < 1/2 then f
  else if 1/2 < r then f + 1
  else if f % 2 = 0 then f else f + 1

/-- Python round(x, 3) on the rational idealization of the float. -/
def pyRound3 (q : ℚ) : ℚ := (roundHalfEven (q * 1000) : ℚ) / 1000

/-- RoutingAggregator.__call__: overrides, defaults, the weighted fold of
the present confidences, division by the accumulated weight or the 0.25
fallback, rounding to three decimals, clamping to the unit interval, and
the note list. -/
def aggregatorCall (source : SourceSignal) (intent : IntentSignal) (safety : SafetySignal)
    (selfCheck : Option SelfCheck) (wSource wIntent wSelf : ℚ) : RoutingContext :=
  let finalSource :=
    pyOrStr (if condOverride safety.overrideSource then safety.overrideSource else source.source)
      "repo_chunks"
  let finalIntent :=
    pyOrStr (if condOverride safety.overrideIntent then safety.overrideIntent else intent.intent)
      "lookup"
  let acc :=
    ([(source.confidence, wSource), (intent.confidence, wIntent),
      (selfConfOf selfCheck, wSelf)]).foldl
      (fun acc p =>
        match p.1 with
        | none => acc
        | some v => (acc.1 + v * p.2, acc.2 + p.2))
      ((0 : ℚ), (0 : ℚ))
  let rc0 := if acc.2 ≠ 0 then acc.1 / acc.2 else 1/4
  let rc := max 0 (min 1 (pyRound3 rc0))
  let notes1 :=
    (if condOverride safety.overrideSource then ["override:source"] else []) ++
    (if condOverride safety.overrideIntent then ["override:intent"] else [])
  let notes2 := if notes1.isEmpty then ["auto aggregation"] else notes1
  let notes3 := if selfFreshOf selfCheck then notes2 ++ ["freshness requested"] else notes2
  ⟨finalSource, finalIntent, rc, String.intercalate "; " notes3, selfFreshOf selfCheck⟩

/-- An argument value in a tool call's argument map. -/
inductive ArgValue where
  | str (s : String)
  | int (n : Int)
deriving DecidableEq, Repr

/-- A tool-call record: the function router's and fallback router's
output.  An absent key is the none case; the empty dict of the
failed-classifier path has no name, no arguments, no confidence and no
reason. -/
structure FunctionChoice where
  name : Option String
  arguments : List (String × ArgValue)
  confidence : Option ℚ
  reason : Option String
deriving DecidableEq, Repr

/-- RoutingManager._has_valid_function on an optional choice. -/
def hasValidFunction (fc : Option FunctionChoice) : Bool :=
  match fc with
  | none => false
  | some f =>
    let n := String.mk (toLowerS (trim (pyOrStr f.name "").data))
    n != "" && n != "none"

/-- RoutingManager._run_function_router: below the gate the forced none
choice without consulting the classifier; at or above it the classifier's
parsed output, an empty record when the response was unusable. -/
def runFunctionRouter (ctx : RoutingContext) (gate : ℚ) (oracle : Option FunctionChoice) :
    FunctionChoice :=
  if ctx.routingConfidence < gate then
    ⟨some "none", [], some ctx.routingConfidence, some "routing_confidence below threshold"⟩
  else oracle.getD ⟨none, [], none, none⟩

/-- First character class of the filename token pattern: letters, digits,
underscore, dash, dot, slash. -/
def fileTokenClass1 (c : Char) : Bool :=
  c.isAlphanum || c = '_' || c = '-' || c = '.' || c = '/'

/-- Second character class of the filename token pattern (no slash). -/
def fileTokenClass2 (c : Char) : Bool :=
  c.isAlphanum || c = '_' || c = '.' || c = '-'

/-- The lazy part of the filename token match at a fixed start: extend the
non-greedy first class one character at a time until a dot followed by a
second-class character is found, then take the greedy second-class run. -/
def fileTokenAux (acc : Str) : Str → Option Str
  | [] => none
  | c :: rest =>
    if fileTokenClass1 c then
      match rest with
      | '.' :: r2 =>
        (match r2 with
         | d :: _ =>
           if fileTokenClass2 d then some (acc ++ c :: '.' :: r2.takeWhile fileTokenClass2)
           else fileTokenAux (acc ++ [c]) rest
         | [] => fileTokenAux (acc ++ [c]) rest)
      | _ => fileTokenAux (acc ++ [c]) rest
    else none

/-- Leftmost search of the filename token pattern. -/
def searchFileToken : Str → Option Str
  | [] => none
  | c :: rest =>
    match fileTokenAux [] (c :: rest) with
    | some tok => some tok
    | none => searchFileToken rest

/-- Python lstrip with the dot-slash character set. -/
def lstripDotSlash (s : Str) : Str := s.dropWhile (fun c => c = '.' || c = '/')

/-- FallbackRouter._extract_primary_path. -/
def extractPrimaryPath (text : Str) : Option Str :=
  if text.isEmpty then none
  else
    match searchFileToken text with
    | some tok => some (lstripDotSlash tok)
    | none => none

/-- The token runs of the fallback keyword search (maximal runs of the
first filename character class). -/
def tokenRuns : Str → List Str
  | [] => []
  | c :: rest =>
    if fileTokenClass1 c then
      match rest with
      | d :: _ =>
        if fileTokenClass1 d then
          match tokenRuns rest with
          | t :: ts => (c :: t) :: ts
          | [] => [[c]]
        else [c] :: tokenRuns rest
      | [] => [[c]]
    else tokenRuns rest

/-- FallbackRouter._fallback_keyword: the first token containing a dot,
else the first token, else the README default. -/
def fallbackKeyword (text : Str) : String :=
  let tokens := tokenRuns text
  match tokens.find? (fun t => containsSub t (lit ".")) with
  | some t => String.mk t
  | none =>
    match tokens with
    | t :: _ => String.mk t
    | [] => "README"

/-- The curated table names probed by the fallback router. -/
def knownTables : List String := ["repo_meta", "repo_chunks", "files_meta", "symbol_links"]

/-- Match of the from-identifier pattern at a fixed position:
case-insensitive from, whitespace, then an identifier starting with an
ASCII letter or underscore followed by word characters. -/
def fromIdentAt (t : Str) : Option Str :=
  if List.isPrefixOf (lit "from") (toLowerS (t.take 4)) then
    match t.drop 4 with
    | c :: _ =>
      if isSpaceCh c then
        match (t.drop 4).dropWhile isSpaceCh with
        | d :: _ =>
          if d.isAlpha || d = '_' then
            some (((t.drop 4).dropWhile isSpaceCh).takeWhile isWordCh)
          else none
        | [] => none
      else none
    | [] => none
  else none

/-- Leftmost search of the from-identifier pattern. -/
def searchFromIdent : Str → Option Str
  | [] => none
  | c :: rest =>
    match fromIdentAt (c :: rest) with
    | some r => some r
    | none => searchFromIdent rest

/-- FallbackRouter._detect_known_table: a curated table name occurring in
the lowered text, else the identifier after a from keyword. -/
def detectKnownTable (text : Str) : Option String :=
  let lowered := toLowerS text
  match knownTables.find? (fun tb => containsSub lowered (lit tb)) with
  | some tb => some tb
  | none =>
    match searchFromIdent text with
    | some ident => some (String.mk ident)
    | none => none

/-- The lazy tail of the select-statement match: consume at least one
character and stop at the first semicolon, at the end of the text, or just
before a final newline (the dollar anchor of the pattern). -/
def lazyToTerm : Str → Option Str
  | [] => none
  | d :: rest =>
    if rest.isEmpty || rest = ['\n'] then some [d]
    else
      match rest with
      | ';' :: _ => some [d]
      | _ =>
        match lazyToTerm rest with
        | some p => some (d :: p)
        | none => none

/-- Match of the select-statement pattern at a fixed position:
case-insensitive select, one whitespace character, then the lazy tail. -/
def selectMatchAt (t : Str) : Option Str :=
  if List.isPrefixOf (lit "select") (toLowerS (t.take 6)) then
    match t.drop 6 with
    | c :: rest =>
      if isSpaceCh c then
        match lazyToTerm rest with
        | some p => some (t.take 6 ++ c :: p)
        | none => none
      else none
    | [] => none
  else none

/-- Leftmost search of the select-statement pattern. -/
def searchSelect : Str → Option Str
  | [] => none
  | c :: rest =>
    match selectMatchAt (c :: rest) with
    | some q => some q
    | none => searchSelect rest

/-- FallbackRouter._extract_select_query: the matched statement, stripped,
kept only when it still starts with select, with a LIMIT 50 bound appended
when none is present. -/
def extractSelectQuery (text : Str) : Option String :=
  if text.isEmpty then none
  else
    match searchSelect text with
    | some q =>
      let query := trim q
      if !(List.isPrefixOf (lit "select") (toLowerS query)) then none
      else if containsSub (toLowerS query) (lit "limit") then some (String.mk query)
      else some (String.mk (query ++ lit " LIMIT 50"))
    | none => none

/-- An argument type in a tool schema. -/
inductive ArgType where
  | strT
  | intT
deriving DecidableEq, Repr

/-- Modelled from the spec: the static tool catalogue of the external
interfaces section.  The tool_definitions list injected into
RoutingManager is not part of the sources, so the names come from the
spec's catalogue and each tool's argument schema from the argument maps
the router builds for it. -/
def toolCatalogue : List (String × List (String × ArgType)) :=
  [("read_file", [("path", .strT)]),
   ("search_file", [("keyword", .strT), ("max_results", .intT)]),
   ("rag_search_chunks", [("query", .strT), ("top_k", .intT)]),
   ("rag_search_files", [("query", .strT), ("top_k", .intT)]),
   ("rag_search_symbols", [("query", .strT), ("top_k", .intT)]),
   ("inspect_table_columns", [("table", .strT)]),
   ("connect_db", [("query", .strT)]),
   ("search_web", [("query", .strT)]),
   ("answer_direct", ([] : List (String × ArgType)))]

/-- The type of an argument value. -/
def argTypeOf : ArgValue → ArgType
  | .str _ => .strT
  | .int _ => .intT

/-- The signature of an argument map: its keys with their value types, in
order. -/
def argSignature (args : List (String × ArgValue)) : List (String × ArgType) :=
  args.map (fun p => (p.1, argTypeOf p.2))

/-- Does a tool choice carry a catalogue name together with an argument
map matching that tool's schema? -/
def conformsToCatalogue (fc : FunctionChoice) : Bool :=
  toolCatalogue.any fun entry =>
    fc.name = some entry.1 && argSignature fc.arguments = entry.2

/-- FallbackRouter.select. -/
def fallbackSelect (userText : Str) (ctx : RoutingContext) : FunctionChoice :=
  let finalSource := String.mk (toLowerS ctx.finalSource.data)
  let finalIntent := String.mk (toLowerS ctx.finalIntent.data)
  let confidence := ctx.routingConfidence
  if finalSource = "filesystem" || finalSource = "local file" then
    if finalIntent = "read" || finalIntent = "check_contents" || finalIntent = "summarize" then
      match extractPrimaryPath userText with
      | some path =>
        ⟨some "read_file", [("path", .str (String.mk path))], some confidence,
         some "fallback filesystem mapping"⟩
      | none =>
        ⟨some "search_file",
         [("keyword", .str (fallbackKeyword userText)), ("max_results", .int 20)],
         some confidence, some "fallback filesystem mapping"⟩
    else
      ⟨some "search_file",
       [("keyword", .str (fallbackKeyword userText)), ("max_results", .int 20)],
       some confidence, some "fallback filesystem mapping"⟩
  else if finalSource = "repo_chunks" then
    let toolName :=
      if finalIntent = "file_metadata" || finalIntent = "search_file" then "rag_search_files"
      else if finalIntent = "symbol_graph" then "rag_search_symbols"
      else "rag_search_chunks"
    ⟨some toolName, [("query", .str (String.mk userText)), ("top_k", .int 8)],
     some confidence, some "fallback repo_chunks mapping"⟩
  else if finalSource = "postgres" then
    if finalIntent = "schema_view" then
      ⟨some "inspect_table_columns",
       [("table", .str ((detectKnownTable userText).getD "repo_meta"))],
       some confidence, some "fallback postgres schema_view"⟩
    else
      let query :=
        match extractSelectQuery userText with
        | some q => q
        | none => "SELECT * FROM " ++ ((detectKnownTable userText).getD "repo_meta") ++ " LIMIT 25"
      ⟨some "connect_db", [("query", .str query)], some confidence,
       some "fallback postgres query"⟩
  else if finalSource = "external_web" then
    ⟨some "search_web", [("query", .str (String.mk userText))], some confidence,
     some "fallback external_web"⟩
  else
    ⟨some "answer_direct", [], some confidence, some "fallback direct answer"⟩

/-- The record returned by RoutingManager.route. -/
structure RouteResult where
  source : SourceSignal
  intent : IntentSignal
  safety : SafetySignal
  selfCheck : Option SelfCheck
  routingContext : RoutingContext
  functionRouter : FunctionChoice
  fallbackFunction : Option FunctionChoice
  finalFunction : FunctionChoice
  actionPlan : ActionPlan
deriving DecidableEq, Repr

/-- RoutingManager.route for one turn: the three signal routers over the
same state snapshot and similarity value, the aggregation with the default
weights, the action plan, the gated function router (its classifier
response supplied as an oracle), and the deterministic fallback when the
router produced no valid tool. -/
def routeModel (userText : Str) (selfCheck : Option SelfCheck) (state : RoutingState)
    (sim : Option ℚ) (sourceOracle : Option SourceSignal) (intentOracle : Option IntentSignal)
    (funcOracle : Option FunctionChoice) (gate : ℚ) : RouteResult :=
  let source := runSourceRouter userText state sim sourceOracle
  let intent := runIntentRouter userText state sim intentOracle
  let safety := runSafetyRouter userText state sim
  let ctx := aggregatorCall source intent safety selfCheck (2/5) (2/5) (1/5)
  let plan := buildActionPlan userText
  let fr := runFunctionRouter ctx gate funcOracle
  let valid := hasValidFunction (some fr)
  let fallback := if valid then none else some (fallbackSelect userText ctx)
  let finalCall := if valid then fr else fallbackSelect userText ctx
  ⟨source, intent, safety, selfCheck, ctx, fr, fallback, finalCall, plan⟩

/-- RoutingManager._update_routing_state: the per-conversation state
committed after a turn (the stored raw text and embedding appear in the
model as the similarity input of the next turn). -/
def updateRoutingState (ctx : RoutingContext) : RoutingState :=
  ⟨some ctx.finalSource, some ctx.finalIntent⟩

section KernelRat

/- Rational arithmetic must evaluate inside the kernel for the concrete
routing computations of this section; the library marks these operations
irreducible for rewriting purposes only. -/
attribute [local semireducible] Rat.add Rat.mul Rat.sub Rat.inv Rat.ofScientific

theorem routeModel_source (userText : Str) (selfCheck : Option SelfCheck)
    (state : RoutingState) (sim : Option ℚ) (sourceOracle : Option SourceSignal)
    (intentOracle : Option IntentSignal) (funcOracle : Option FunctionChoice) (gate : ℚ) :
    (routeModel userText selfCheck state sim sourceOracle intentOracle funcOracle gate).source =
      runSourceRouter userText state sim sourceOracle := rfl

theorem routeModel_routingContext (userText : Str) (selfCheck : Option SelfCheck)
    (state : RoutingState) (sim : Option ℚ) (sourceOracle : Option SourceSignal)
    (intentOracle : Option IntentSignal) (funcOracle : Option FunctionChoice) (gate : ℚ) :
    (routeModel userText selfCheck state sim sourceOracle intentOracle funcOracle gate).routingContext =
      aggregatorCall (runSourceRouter userText state sim sourceOracle)
        (runIntentRouter userText state sim intentOracle)
        (runSafetyRouter userText state sim) selfCheck (2/5) (2/5) (1/5) := rfl

theorem routeModel_functionRouter (userText : Str) (selfCheck : Option SelfCheck)
    (state : RoutingState) (sim : Option ℚ) (sourceOracle : Option SourceSignal)
    (intentOracle : Option IntentSignal) (funcOracle : Option FunctionChoice) (gate : ℚ) :
    (routeModel userText selfCheck state sim sourceOracle intentOracle funcOracle gate).functionRouter =
      runFunctionRouter
        (routeModel userText selfCheck state sim sourceOracle intentOracle funcOracle gate).routingContext
        gate funcOracle := rfl

theorem routeModel_finalFunction (userText : Str) (selfCheck : Option SelfCheck)
    (state : RoutingState) (sim : Option ℚ) (sourceOracle : Option SourceSignal)
    (intentOracle : Option IntentSignal) (funcOracle : Option FunctionChoice) (gate : ℚ) :
    (routeModel userText selfCheck state sim sourceOracle intentOracle funcOracle gate).finalFunction =
      (if hasValidFunction (some ((routeModel userText selfCheck state sim sourceOracle
            intentOracle funcOracle gate).functionRouter)) then
        (routeModel userText selfCheck state sim sourceOracle intentOracle funcOracle gate).functionRouter
      else
        fallbackSelect userText
          (routeModel userText selfCheck state sim sourceOracle intentOracle
            funcOracle gate).routingContext) := rfl

theorem fallbackSelect_conforms (userText : Str) (ctx : RoutingContext) :
    conformsToCatalogue (fallbackSelect userText ctx) = true := by
  rw [fallbackSelect]
  split_ifs <;> first
    | rfl
    | (cases extractPrimaryPath userText <;> rfl)

theorem fallbackSelect_valid (userText : Str) (ctx : RoutingContext) :
    hasValidFunction (some (fallbackSelect userText ctx)) = true := by
  rw [fallbackSelect]
  split_ifs <;> first
    | rfl
    | (cases extractPrimaryPath userText <;> rfl)

/-- A tool classifier response whose name lies outside the static
catalogue and whose argument map is empty. -/
def bogusChoice : FunctionChoice := ⟨some "bogus_tool", [], some 1, some "llm"⟩

/-- Claim C2, counterexample: a turn whose aggregated confidence passes the
gate accepts the external tool classifier's output verbatim after only a
non-empty, non-none name check, so a classifier response naming a tool
outside the catalogue (with no matching argument map) becomes the final
tool unchanged. -/
theorem claim_C2_counterexample :
    (routeModel (lit "search the database") none ⟨none, none⟩ none none none
        (some bogusChoice) (2/5)).finalFunction.name = some "bogus_tool" ∧
    conformsToCatalogue
      ((routeModel (lit "search the database") none ⟨none, none⟩ none none none
        (some bogusChoice) (2/5)).finalFunction) = false := by decide

/-- Claim C2, amended: whenever the tool classifier yields no valid choice
(the gate forced none, or the response was unusable or named none), the
final tool comes from the deterministic fallback and always carries a name
drawn from the static tool catalogue together with an argument map matching
that tool's schema; a classifier choice with a non-empty, non-none name is
accepted verbatim without a catalogue or schema check. -/
theorem claim_C2_fallback_in_catalogue (userText : Str) (selfCheck : Option SelfCheck)
    (state : RoutingState) (sim : Option ℚ) (sourceOracle : Option SourceSignal)
    (intentOracle : Option IntentSignal) (funcOracle : Option FunctionChoice) (gate : ℚ)
    (h : hasValidFunction (some ((routeModel userText selfCheck state sim sourceOracle
      intentOracle funcOracle gate).functionRouter)) = false) :
    conformsToCatalogue ((routeModel userText selfCheck state sim sourceOracle
      intentOracle funcOracle gate).finalFunction) = true := by
  rw [routeModel_finalFunction, h]
  simp only [Bool.false_eq_true, if_false]
  exact fallbackSelect_conforms userText _

/-- Claim C2, witness: a concrete turn below the gate, where the function
router is forced to the none choice and the fallback's final tool conforms
to the catalogue. -/
theorem claim_C2_fallback_witness :
    hasValidFunction (some ((routeModel (lit "hi") none ⟨none, none⟩ none none none none
      (2/5)).functionRouter)) = false ∧
    conformsToCatalogue ((routeModel (lit "hi") none ⟨none, none⟩ none none none none
      (2/5)).finalFunction) = true :=
  ⟨by decide,
   claim_C2_fallback_in_catalogue (lit "hi") none ⟨none, none⟩ none none none none (2/5)
     (by decide)⟩

/-- Claim C3: for every prior conversation state, similarity value,
classifier response and gate, routing the query containing the explicit
keyword database produces the source signal postgres at confidence 0.95
with the explicit-signal reason, and the aggregated final source is
postgres: the explicit keyword match precedes both the continuity check
and the classifier call, and the safety pass's override pins the final
source. -/
theorem claim_C3_database_query_routes_postgres (selfCheck : Option SelfCheck)
    (state : RoutingState) (sim : Option ℚ) (sourceOracle : Option SourceSignal)
    (intentOracle : Option IntentSignal) (funcOracle : Option FunctionChoice) (gate : ℚ) :
    (routeModel (lit "search the database for users") selfCheck state sim sourceOracle
        intentOracle funcOracle gate).source =
      ⟨some "postgres", some (95/100), some "explicit signal"⟩ ∧
    (routeModel (lit "search the database for users") selfCheck state sim sourceOracle
        intentOracle funcOracle gate).routingContext.finalSource = "postgres" := by
  have hdet : detectExplicitSignal (lit "search the database for users")
      explicitSourceSignals = some "postgres" := by decide
  constructor
  · rw [routeModel_source, runSourceRouter.eq_def, hdet]
  · rw [routeModel_routingContext]
    have hsaf : runSafetyRouter (lit "search the database for users") state sim =
        ⟨some "postgres", some "none", "explicit source signal"⟩ := by
      rw [runSafetyRouter.eq_def, hdet]
    rw [hsaf, aggregatorCall]
    rfl

/-- Claim C4: when the source, intent and self-check confidences are all
absent, the aggregated routing confidence is 0.25, which is below the
default 0.4 gate, so the tool classification returns the forced none choice
with the below-threshold reason for every possible classifier response
(the classifier is never consulted), that choice is not a valid function,
and the deterministic fallback then supplies a valid (non-none) final
tool. -/
theorem claim_C4_absent_confidences_gate (src : SourceSignal) (intent : IntentSignal)
    (saf : SafetySignal) (sc : Option SelfCheck) (oracle : Option FunctionChoice) (text : Str)
    (h1 : src.confidence = none) (h2 : intent.confidence = none)
    (h3 : selfConfOf sc = none) :
    (aggregatorCall src intent saf sc (2/5) (2/5) (1/5)).routingConfidence = 1/4 ∧
    runFunctionRouter (aggregatorCall src intent saf sc (2/5) (2/5) (1/5)) (2/5) oracle =
      ⟨some "none", [], some (1/4), some "routing_confidence below threshold"⟩ ∧
    hasValidFunction (some (runFunctionRouter
      (aggregatorCall src intent saf sc (2/5) (2/5) (1/5)) (2/5) oracle)) = false ∧
    hasValidFunction (some (fallbackSelect text
      (aggregatorCall src intent saf sc (2/5) (2/5) (1/5)))) = true := by
  have hrc : (aggregatorCall src intent saf sc (2/5) (2/5) (1/5)).routingConfidence = 1/4 := by
    rw [aggregatorCall, h1, h2, h3]
    rfl
  have hfr : runFunctionRouter (aggregatorCall src intent saf sc (2/5) (2/5) (1/5)) (2/5) oracle =
      ⟨some "none", [], some (1/4), some "routing_confidence below threshold"⟩ := by
    rw [runFunctionRouter, hrc, if_pos (by decide)]
  refine ⟨hrc, hfr, ?_, fallbackSelect_valid text _⟩
  rw [hfr]
  decide

/-- Claim C4, witness: concrete signals carrying no confidences, the empty
classifier response and a concrete query, at which the hypotheses hold and
the gate, the forced none choice and the non-none fallback all follow. -/
theorem claim_C4_witness :
    (⟨some "repo_chunks", none, none⟩ : SourceSignal).confidence = none ∧
    (⟨some "lookup", none, none⟩ : IntentSignal).confidence = none ∧
    selfConfOf none = none ∧
    ((aggregatorCall ⟨some "repo_chunks", none, none⟩ ⟨some "lookup", none, none⟩
        defaultSafetySignal none (2/5) (2/5) (1/5)).routingConfidence = 1/4 ∧
     runFunctionRouter (aggregatorCall ⟨some "repo_chunks", none, none⟩
        ⟨some "lookup", none, none⟩ defaultSafetySignal none (2/5) (2/5) (1/5)) (2/5) none =
        ⟨some "none", [], some (1/4), some "routing_confidence below threshold"⟩ ∧
     hasValidFunction (some (runFunctionRouter (aggregatorCall ⟨some "repo_chunks", none, none⟩
        ⟨some "lookup", none, none⟩ defaultSafetySignal none (2/5) (2/5) (1/5)) (2/5) none)) =
        false ∧
     hasValidFunction (some (fallbackSelect (lit "hello")
        (aggregatorCall ⟨some "repo_chunks", none, none⟩ ⟨some "lookup", none, none⟩
          defaultSafetySignal none (2/5) (2/5) (1/5)))) = true) :=
  ⟨rfl, rfl, rfl,
   claim_C4_absent_confidences_gate ⟨some "repo_chunks", none, none⟩
     ⟨some "lookup", none, none⟩ defaultSafetySignal none none (lit "hello") rfl rfl rfl⟩

theorem clamp_round_quarter : max (0:ℚ) (min 1 (pyRound3 (1/4))) = 1/4 := by decide

end KernelRat

/-- The spec's description of the aggregated confidence, stated
independently of the code: the weighted mean with weights 0.4, 0.4, 0.2
taken over exactly the present inputs, rounded to three decimals and
clamped to the unit interval, and 0.25 when no input is present. -/
def specWeightedConfidence (sourceConf intentConf selfConf : Option ℚ) : ℚ :=
  let present :=
    ([(sourceConf, (2:ℚ)/5), (intentConf, (2:ℚ)/5), (selfConf, (1:ℚ)/5)]).filterMap
      (fun p => p.1.map (fun v => (v, p.2)))
  if present.isEmpty then 1/4
  else
    max 0 (min 1 (pyRound3
      ((present.map (fun q => q.1 * q.2)).sum / (present.map Prod.snd).sum)))

/-- Claim C5: for every combination of present and absent source, intent
and self-check confidences, the aggregator's routing confidence equals the
weighted mean with weights 0.4, 0.4, 0.2 over exactly the present inputs,
rounded to three decimals and clamped to the unit interval, and equals
0.25 when no input is present. -/
theorem claim_C5_weighted_confidence (src : SourceSignal) (intent : IntentSignal)
    (saf : SafetySignal) (sc : Option SelfCheck) :
    (aggregatorCall src intent saf sc (2/5) (2/5) (1/5)).routingConfidence =
      specWeightedConfidence src.confidence intent.confidence (selfConfOf sc) := by
  rw [aggregatorCall, specWeightedConfidence]
  rcases hs : src.confidence with _ | a <;> rcases hi : intent.confidence with _ | b <;>
    rcases hc : selfConfOf sc with _ | c <;>
    simp only [List.filterMap_cons, List.filterMap_nil, Option.map_none, Option.map_some,
      List.foldl_cons, List.foldl_nil, List.isEmpty_cons, List.isEmpty_nil, List.map_cons,
      List.map_nil, List.sum_cons, List.sum_nil] <;>
    norm_num <;>
    first
      | rw [clamp_round_quarter]
      | (congr 1 <;> congr 1 <;> congr 1 <;> ring)

theorem sortedDedup_nil : sortedDedup [] = [] := rfl

theorem analyze_shape (text : Str) :
    ∃ (readHits modifyHits : List String) (details : List ClauseDetail),
      analyzeActionSignals text =
        ⟨(if !modifyHits.isEmpty then "read_then_modify"
          else if !readHits.isEmpty then "read_only" else "unknown"),
         sortedDedup readHits, sortedDedup modifyHits, details,
         (if !modifyHits.isEmpty then "read_then_modify"
          else if !readHits.isEmpty then "read_only" else "unknown") = "read_then_modify",
         (if !modifyHits.isEmpty then buildClauseReason details "modify"
          else if !readHits.isEmpty then buildClauseReason details "read"
          else "no strong signals")⟩ := by
  refine ⟨((splitActionClauses (normalizeActionText text)).map
      (fun cl => matchKeywords cl readKeywords)).flatten,
    ((splitActionClauses (normalizeActionText text)).map
      (fun cl => matchKeywords cl modifyKeywords)).flatten,
    (splitActionClauses (normalizeActionText text)).filterMap (fun cl =>
      let r := matchKeywords cl readKeywords
      let m := matchKeywords cl modifyKeywords
      if !r.isEmpty || !m.isEmpty then some (⟨cl, r, m⟩ : ClauseDetail) else none), rfl⟩

/-- Claim C10, counterexample: the literal query about opening a file and
renaming a function contains none of the curated read or modify keywords
(neither the word open nor the word rename is in either table), so its
action plan mode is unknown, not read_then_modify. -/
theorem claim_C10_counterexample :
    (buildActionPlan (lit "open this file and rename the function")).mode = "unknown" ∧
    ("unknown" : String) ≠ "read_then_modify" := by decide

/-- Claim C10, amended: the literal query about opening and renaming
classifies as unknown since no curated keyword matches; when any clause of
the normalized text does match a modify keyword, the action plan mode is
read_then_modify — modify matches take precedence over read matches — as
for the same request phrased with the catalogued keyword edit. -/
theorem claim_C10_modify_precedence (text : Str)
    (h : (analyzeActionSignals text).signalsModify ≠ []) :
    (buildActionPlan text).mode = "read_then_modify" := by
  have hplan : (buildActionPlan text).mode = (analyzeActionSignals text).mode := rfl
  rw [hplan]
  obtain ⟨readHits, modifyHits, details, hshape⟩ := analyze_shape text
  rw [hshape] at h ⊢
  by_cases hm : modifyHits.isEmpty = true
  · exfalso
    apply h
    rw [List.isEmpty_iff] at hm
    subst hm
    exact sortedDedup_nil
  · show (if !modifyHits.isEmpty then "read_then_modify"
      else if !readHits.isEmpty then "read_only" else "unknown") = "read_then_modify"
    rw [if_pos (by simpa using hm)]

/-- Claim C10, witness: the request phrased with the catalogued modify
keyword edit has a non-empty modify signal set and classifies as
read_then_modify. -/
theorem claim_C10_witness :
    (analyzeActionSignals (lit "open this file and edit the function")).signalsModify ≠ [] ∧
    (buildActionPlan (lit "open this file and edit the function")).mode = "read_then_modify" :=
  ⟨by decide,
   claim_C10_modify_precedence (lit "open this file and edit the function") (by decide)⟩

/-- The effective limit computed by RAGQueryManager._prepare_query: the
Python expression takes top_k or 5 (so a zero argument, being falsy, is
replaced by the default 5) and clamps the result to at least 1 and at most
50. -/
def prepareQueryTopK (topK : Int) : Int :=
  max 1 (min (if topK = 0 then 5 else topK) 50)

/-- The identical limit expression duplicated in
RAGQueryManager.search_symbols. -/
def searchSymbolsTopK (topK : Int) : Int :=
  max 1 (min (if topK = 0 then 5 else topK) 50)

/-- Claim C9, counterexample: the supplied integer zero is not clamped to
the interval's lower end 1 — being falsy it is replaced by the default 5
before clamping. -/
theorem claim_C9_counterexample :
    prepareQueryTopK 0 = 5 ∧ max 1 (min (0 : Int) 50) = 1 ∧ (5 : Int) ≠ 1 := by decide

/-- Claim C9, amended: for every non-zero integer top_k the effective limit
of the chunk, file and symbol searches is top_k clamped to the interval
from 1 to 50, and the result always lies in that interval; a supplied zero
is treated like an absent value and maps to the default 5, which is also
the default when no value is supplied. -/
theorem claim_C9_topk_clamped (k : Int) :
    prepareQueryTopK k = (if k = 0 then 5 else max 1 (min k 50)) ∧
    searchSymbolsTopK k = prepareQueryTopK k ∧
    1 ≤ prepareQueryTopK k ∧ prepareQueryTopK k ≤ 50 ∧
    prepareQueryTopK 5 = 5 := by
  refine ⟨?_, rfl, ?_, ?_, by decide⟩
  · by_cases h : k = 0
    · subst h
      decide
    · rw [prepareQueryTopK, if_neg h, if_neg h]
  · rw [prepareQueryTopK]
    exact le_max_left 1 _
  · rw [prepareQueryTopK]
    rcases max_choice 1 (min (if k = 0 then 5 else k) 50) with h | h
    · rw [h]
      decide
    · rw [h]
      exact min_le_right _ 50

end RagSpec
